import Mathlib

/-
  Verification development for the HabitSync collaborative habit tracker.

  Shallow embedding of the core logic of src/App.tsx (and the data model of
  src/types.ts): calendar dates are modelled as integer day numbers (one unit
  per calendar day, with day residue 0 mod 7 falling on a Monday, matching
  date-fns startOfWeek with weekStartsOn 1); a JavaScript Date value is a pair
  of a day number and a seconds-of-day component; the per-habit log record
  (Record<string, Log> keyed by the yyyy-MM-dd date key) is an association
  list keyed by day number; JavaScript number arithmetic in the scoring engine
  is modelled as exact rational arithmetic, and Math.round as the rounding
  function of the rationals (both round half toward positive infinity).
-/

namespace HabitSync

/-- Completion status of a log entry (src/types.ts HabitStatus). -/
inductive HabitStatus
  | DONE
  | NOT_DONE
  | PENDING
deriving DecidableEq, Repr

/-- Habit frequency (src/types.ts HabitFrequency). -/
inductive HabitFrequency
  | DAILY
  | WEEKLY
  | INTERVAL
  | SPECIFIC_DAYS
deriving DecidableEq, Repr

/-- A single log entry (src/types.ts Log): the date field is the redundant
copy of the map key, the timestamp is the epoch-milliseconds of the last
mutation. The optional notes payload is never read by the core logic and is
not modelled. -/
structure Log where
  date : Int
  status : HabitStatus
  timestamp : Nat
deriving DecidableEq, Repr

/-- A habit (src/types.ts Habit). The description field is not modelled;
completed is optional in the source and undefined is falsy, so it is
modelled as a plain Bool. -/
structure Habit where
  id : String
  userId : String
  groupId : Option String
  title : String
  frequency : HabitFrequency
  durationMinutes : Option Nat
  targetDaysPerWeek : Option Nat
  intervalDays : Option Nat
  logs : List (Int × Log)
  completed : Bool
  createdAt : Nat
deriving DecidableEq, Repr

/-- A user (src/types.ts User); dailyReminderTime is the configured HH:mm
reminder converted to seconds of day (none when unset). -/
structure User where
  id : String
  name : String
  dailyReminderTime : Option Nat
deriving DecidableEq, Repr

/-- A group (src/types.ts Group). -/
structure Group where
  id : String
  name : String
  members : List String
  admins : List String
  inviteCode : String
deriving DecidableEq, Repr

/-- An achievement (src/types.ts Achievement).  The document id of an
achievement is the string userId-habitId-milestone; it is modelled by the
field triple (userId, habitId, milestone) itself, which the generated ids are
in bijection with (user and habit ids generated by the app contain no
hyphen-digit suffix that could collide). -/
structure Achievement where
  userId : String
  habitId : String
  habitName : String
  milestone : Nat
  badgeType : String
  earnedAt : Nat
deriving DecidableEq, Repr

/-- Deterministic notification identity (src/App.tsx builds these as the
strings reminder-userId-date, streak-risk-habitId-date and ach-notif-achId;
the three families have distinct prefixes, so they are modelled as the
constructors of a sum type). -/
inductive NotifId
  | reminder (userId : String) (day : Int)
  | streakRisk (habitId : String) (day : Int)
  | achNotif (userId habitId : String) (milestone : Nat)
  | other (raw : String)
deriving DecidableEq, Repr

/-- A notification (src/types.ts Notification); the human-readable message
payload is not read by any core logic and is not modelled. -/
structure Notification where
  nid : NotifId
  userId : String
  read : Bool
  ntype : String
deriving DecidableEq, Repr

/-- A JavaScript Date: calendar day number plus seconds of day.  Comparison
of Date objects compares epoch timestamps, i.e. lexicographically here. -/
structure DateTime where
  day : Int
  sec : Nat
deriving DecidableEq, Repr

/-- Strict timestamp comparison of two Date values (JavaScript a < b). -/
def dtLTb (a b : DateTime) : Bool :=
  a.day < b.day || (a.day == b.day && a.sec < b.sec)

/-- Lookup in a Record modelled as an association list (first binding wins,
matching object key uniqueness in the source). -/
def acLookup {κ α : Type} [DecidableEq κ] (m : List (κ × α)) (k : κ) : Option α :=
  (m.find? (fun p => decide (p.1 = k))).map Prod.snd

/-- Upsert a Record binding (newLogs[dateStr] = log). -/
def acInsert {κ α : Type} [DecidableEq κ] (m : List (κ × α)) (k : κ) (v : α) :
    List (κ × α) :=
  (k, v) :: m.filter (fun p => decide (p.1 ≠ k))

/-- Delete a Record binding (delete newLogs[dateStr]). -/
def acErase {κ α : Type} [DecidableEq κ] (m : List (κ × α)) (k : κ) : List (κ × α) :=
  m.filter (fun p => decide (p.1 ≠ k))

/-- Status of the log recorded under a given date key (habit.logs[d]?.status). -/
def logStatus (logs : List (Int × Log)) (d : Int) : Option HabitStatus :=
  (acLookup logs d).map Log.status

/-- The backward scan of the streak calculator: starting at day d, count how
many consecutive days carry a DONE log, walking one day back at a time.  The
source (src/App.tsx calculateStreak) uses an unbounded while loop that
terminates because the log record is finite; here the recursion carries fuel,
and fuel equal to the number of log entries is enough, because a run of
consecutive DONE days cannot be longer than the number of entries. -/
def backStreak (logs : List (Int × Log)) : Nat → Int → Nat
  | 0, _ => 0
  | fuel + 1, d =>
    if logStatus logs d = some HabitStatus.DONE then backStreak logs fuel (d - 1) + 1
    else 0

/-- Streak calculator (src/App.tsx calculateStreak, lines 235-254): one point
for today when today is DONE, plus the backward scan from yesterday.  The
backward scan runs regardless of whether today is DONE. -/
def calculateStreak (habit : Habit) (today : Int) : Nat :=
  (if logStatus habit.logs today = some HabitStatus.DONE then 1 else 0)
    + backStreak habit.logs habit.logs.length (today - 1)

/-- Modelled from the words of claim C2 (spec 4.3): start at 0; only if
today is DONE, increment and continue scanning backward; a habit whose
today log is not DONE has streak 0 under this reading. -/
def claimStreak (habit : Habit) (today : Int) : Nat :=
  if logStatus habit.logs today = some HabitStatus.DONE then
    1 + backStreak habit.logs habit.logs.length (today - 1)
  else 0

/-- JavaScript default via logical or (x || d): undefined and 0 are falsy. -/
def jsOr (o : Option Nat) (d : Nat) : Nat :=
  match o with
  | some v => if v = 0 then d else v
  | none => d

/-- Monday of the week containing day d (date-fns startOfWeek with
weekStartsOn 1; day residue 0 mod 7 is a Monday). -/
def startOfWeek (d : Int) : Int := d - d % 7

/-- Result of the Actionability Evaluator. -/
structure ActionResult where
  enabled : Bool
  reason : Option String
deriving DecidableEq, Repr

/-- Loop body of the WEEKLY branch of src/App.tsx isHabitActionable
(lines 1730-1736): on a DONE day, bump the count and flag the target date. -/
def weekStep (logs : List (Int × Log)) (target : Int) (acc : Nat × Bool) (d : Int) :
    Nat × Bool :=
  if logStatus logs d = some HabitStatus.DONE then (acc.1 + 1, acc.2 || (d == target))
  else acc

/-- The 7 days of the Monday-start week starting at ws. -/
def weekDaysFrom (ws : Int) : List Int := (List.range 7).map (fun i => ws + Int.ofNat i)

/-- The week loop of the WEEKLY branch: walk the 7 days of the Monday-start
week of the target, counting DONE logs and flagging whether the target date
itself carries a DONE log. -/
def weekScan (logs : List (Int × Log)) (ws target : Int) : Nat × Bool :=
  (weekDaysFrom ws).foldl (weekStep logs target) (0, false)

/-- Actionability Evaluator (src/App.tsx isHabitActionable, lines 1719-1758).
The future guard compares full Date timestamps (date > new Date()); the
WEEKLY branch runs the week loop; the INTERVAL branch scans every other DONE
log for a calendar-day distance below the interval. -/
def isHabitActionable (habit : Habit) (date now : DateTime) : ActionResult :=
  let dateKey := date.day
  if dtLTb now date then { enabled := false, reason := some "Future" }
  else if habit.frequency = HabitFrequency.WEEKLY then
    let target := jsOr habit.targetDaysPerWeek 1
    let ws := startOfWeek dateKey
    let scan := weekScan habit.logs ws dateKey
    if !scan.2 && target ≤ scan.1 then
      { enabled := false, reason := some "Weekly target met" }
    else { enabled := true, reason := none }
  else if habit.frequency = HabitFrequency.INTERVAL then
    let interval := jsOr habit.intervalDays 2
    if habit.logs.any (fun p =>
        decide (p.2.status = HabitStatus.DONE) && decide (p.1 ≠ dateKey) &&
        decide ((dateKey - p.1).natAbs < interval)) then
      { enabled := false, reason := some ("Wait " ++ toString interval ++ " days") }
    else { enabled := true, reason := none }
  else { enabled := true, reason := none }

/-- Log-toggle operation (src/App.tsx toggleHabitStatus, lines 432-474),
as the pure computation of the habit-document write it issues: none when the
operation returns without writing, some newLogs when it calls updateHabit.
The subsequent group-member notification batch (sent only after the habit
write, when the new status is DONE and the habit belongs to a group) is not
modelled.  The guards in the source are: a signed-in user, the habit found
in the merged local view, and the habit not archived; the cycle is
PENDING to DONE to NOT_DONE to PENDING, where the PENDING step deletes the
log entry and the other steps upsert one with a fresh timestamp. -/
def toggleHabitStatus (habits : List Habit) (currentUserId : Option String)
    (habitId : String) (dateKey : Int) (nowMs : Nat) : Option (List (Int × Log)) :=
  match currentUserId with
  | none => none
  | some _ =>
    match habits.find? (fun h => decide (h.id = habitId)) with
    | none => none
    | some habitToUpdate =>
      if habitToUpdate.completed then none
      else
        let currentStatus := logStatus habitToUpdate.logs dateKey
        let newStatus :=
          if currentStatus = some HabitStatus.DONE then HabitStatus.NOT_DONE
          else if currentStatus = some HabitStatus.NOT_DONE then HabitStatus.PENDING
          else HabitStatus.DONE
        if newStatus = HabitStatus.PENDING then
          some (acErase habitToUpdate.logs dateKey)
        else
          some (acInsert habitToUpdate.logs dateKey
            { date := dateKey, status := newStatus, timestamp := nowMs })

/-- Count of DONE logs whose date field falls inside the scored window
(the filter over Object.values(h.logs) in src/App.tsx getGroupStats). -/
def doneCountInWindow (logs : List (Int × Log)) (window : List Int) : Nat :=
  (logs.filter (fun p =>
    decide (p.2.status = HabitStatus.DONE) && decide (p.2.date ∈ window))).length

/-- Per-habit contribution of src/App.tsx getGroupStats (lines 1768-1781):
the pair of points added to (totalPoints, earnedPoints). -/
def habitPoints (h : Habit) (window : List Int) : ℚ × ℚ :=
  if h.frequency = HabitFrequency.WEEKLY then
    let expected : ℚ := ((window.length : ℚ) / 7) * (jsOr h.targetDaysPerWeek 1 : ℚ)
    let actual : ℚ := (doneCountInWindow h.logs window : ℚ)
    (max 1 expected, min actual expected)
  else
    let expectedDivisor : ℚ :=
      if h.frequency = HabitFrequency.INTERVAL then (jsOr h.intervalDays 1 : ℚ) else 1
    let expected : ℚ := (window.length : ℚ) / expectedDivisor
    let actual : ℚ := (doneCountInWindow h.logs window : ℚ)
    (expected, actual)

/-- Scoring Engine (src/App.tsx getGroupStats, lines 1760-1783): filter the
habits in scope down to the member, accumulate total and earned points, and
round the percentage; 0 for a member with no habits or zero total points. -/
def getGroupStats (relevantHabits : List Habit) (memberId : String)
    (window : List Int) : Int :=
  let memberHabits := relevantHabits.filter (fun h => decide (h.userId = memberId))
  if memberHabits.length = 0 then 0
  else
    let pts := memberHabits.foldl
      (fun (acc : ℚ × ℚ) h =>
        let p := habitPoints h window
        (acc.1 + p.1, acc.2 + p.2))
      (0, 0)
    if pts.1 = 0 then 0 else round (pts.2 / pts.1 * 100)

/-- The fixed milestone table of the achievement engine. -/
def milestoneList : List (Nat × String) := [(11, "BRONZE"), (21, "SILVER"), (31, "GOLD")]

/-- The 20:00 streak-risk cutoff, in seconds of day. -/
def riskCutoffSec : Nat := 72000

/-- Does an achievement carry the given deterministic id triple. -/
def achMatches (uid habitId : String) (days : Nat) (a : Achievement) : Bool :=
  decide (a.userId = uid ∧ a.habitId = habitId ∧ a.milestone = days)

/-- One milestone step of the achievement check (src/App.tsx lines 323-355):
stage a new achievement and its companion notification when the streak has
reached the milestone and no achievement with the same id is either already
persisted or already staged earlier in this scan pass. -/
def scanMilestoneStep (uid : String) (habit : Habit) (streak : Nat)
    (achievements : List Achievement) (nowMs : Nat)
    (acc : List Notification × List Achievement) (m : Nat × String) :
    List Notification × List Achievement :=
  if m.1 ≤ streak then
    if !(achievements.any (achMatches uid habit.id m.1)) &&
        !(acc.2.any (achMatches uid habit.id m.1)) then
      (acc.1 ++ [{ nid := NotifId.achNotif uid habit.id m.1, userId := uid,
                   read := false, ntype := "success" }],
       acc.2 ++ [{ userId := uid, habitId := habit.id, habitName := habit.title,
                   milestone := m.1, badgeType := m.2, earnedAt := nowMs }])
    else acc
  else acc

/-- The streak-risk check of the scan (src/App.tsx lines 296-314): after the
20:00 cutoff, a positive streak whose today log is not DONE stages one risk
notification, deduplicated against the persisted notification snapshot
only. -/
def riskStep (uid : String) (nots : List Notification) (habit : Habit)
    (streak : Nat) (today : Int) (nowSec : Nat)
    (acc : List Notification × List Achievement) :
    List Notification × List Achievement :=
  if riskCutoffSec < nowSec &&
      !(logStatus habit.logs today == some HabitStatus.DONE) &&
      decide (0 < streak) &&
      !(nots.any (fun n => decide (n.nid = NotifId.streakRisk habit.id today))) then
    (acc.1 ++ [{ nid := NotifId.streakRisk habit.id today, userId := uid,
                 read := false, ntype := "alert" }], acc.2)
  else acc

/-- Per-habit body of the scan (src/App.tsx lines 291-356): the streak-risk
check followed by the milestone loop. -/
def scanHabitStep (uid : String) (nots : List Notification)
    (achievements : List Achievement) (today : Int) (nowSec nowMs : Nat)
    (acc : List Notification × List Achievement) (habit : Habit) :
    List Notification × List Achievement :=
  let streak := calculateStreak habit today
  milestoneList.foldl (scanMilestoneStep uid habit streak achievements nowMs)
    (riskStep uid nots habit streak today nowSec acc)

/-- The daily-reminder check of the scan (src/App.tsx lines 267-286): the
starting accumulator of the scan pass, holding at most the one reminder
notification. -/
def reminderBase (currentUser : User) (nots : List Notification)
    (today : Int) (nowSec : Nat) : List Notification × List Achievement :=
  match currentUser.dailyReminderTime with
  | some t =>
    if t < nowSec &&
        !(nots.any (fun n => decide (n.nid = NotifId.reminder currentUser.id today))) then
      ([{ nid := NotifId.reminder currentUser.id today, userId := currentUser.id,
          read := false, ntype := "info" }], [])
    else ([], [])
  | none => ([], [])

/-- Achievement and notification scan
(src/App.tsx checkSmartNotificationsAndAchievements, lines 261-365): the
daily reminder check, then the fold over the current user's non-archived
habits; the result is the pair of batches handed to createNotificationsBatch
and createAchievementsBatch. -/
def checkScan (currentUser : User) (habits : List Habit)
    (nots : List Notification) (achievements : List Achievement)
    (today : Int) (nowSec nowMs : Nat) :
    List Notification × List Achievement :=
  (habits.filter (fun h => decide (h.userId = currentUser.id) && !h.completed)).foldl
    (scanHabitStep currentUser.id nots achievements today nowSec nowMs)
    (reminderBase currentUser nots today nowSec)

/-- Demote an admin (src/App.tsx handleDemoteAdmin, lines 631-641): the new
admins list when a write is issued, none when the request is rejected (the
target is not an admin, or is the sole admin). -/
def handleDemoteAdmin (group : Group) (userId : String) : Option (List String) :=
  if userId ∈ group.admins then
    if 1 < group.admins.length then
      some (group.admins.filter (fun i => decide (i ≠ userId)))
    else none
  else none

/-- Remove a member (src/App.tsx handleRemoveMember, lines 643-669): the new
(members, admins) pair when a write is issued, none when the request is
rejected because the target is the only admin.  The confirmation dialog is
treated as accepted. -/
def handleRemoveMember (group : Group) (userId : String) :
    Option (List String × List String) :=
  if userId ∈ group.admins ∧ group.admins.length = 1 then none
  else
    some (group.members.filter (fun m => decide (m ≠ userId)),
          group.admins.filter (fun a => decide (a ≠ userId)))

/-- Kind of a Firestore snapshot document change. -/
inductive ChangeType
  | added
  | modified
  | removed
deriving DecidableEq, Repr

/-- One document change delivered to a habit listener: the document id and
the document data. -/
structure DocChange where
  ctype : ChangeType
  docId : String
  habit : Habit
deriving DecidableEq, Repr

/-- Apply one change to a habit map the way both listeners do
(src/App.tsx lines 160-166 and 203-207): added and modified upsert the
document under its id, removed deletes it. -/
def applyChange (m : List (String × Habit)) (c : DocChange) : List (String × Habit) :=
  match c.ctype with
  | ChangeType.added => acInsert m c.docId c.habit
  | ChangeType.modified => acInsert m c.docId c.habit
  | ChangeType.removed => acErase m c.docId

/-- Apply one change to the group-habit map (src/App.tsx lines 196-208):
documents owned by the current user are skipped before any branch runs. -/
def applyGroupChange (uid : String) (m : List (String × Habit)) (c : DocChange) :
    List (String × Habit) :=
  if c.habit.userId = uid then m else applyChange m c

/-- The personal-habit map after a sequence of changes (listener A,
src/App.tsx lines 157-169), starting from the empty reset state. -/
def buildMyMap (changes : List DocChange) : List (String × Habit) :=
  changes.foldl applyChange []

/-- The group-habit map after a sequence of changes (src/App.tsx
lines 193-211), starting from the empty reset state. -/
def buildGroupMap (uid : String) (changes : List DocChange) : List (String × Habit) :=
  changes.foldl (applyGroupChange uid) []

/-- The merged habit view (src/App.tsx line 58, the object spread
merged = my then group): per key, the group map wins on collision. -/
def mergedLookup (myMap groupMap : List (String × Habit)) (k : String) : Option Habit :=
  match acLookup groupMap k with
  | some h => some h
  | none => acLookup myMap k

/-! Concrete fixtures used by counterexamples and witnesses. -/

/-- Build a log record from a list of day and status pairs. -/
def mkLogs (l : List (Int × HabitStatus)) : List (Int × Log) :=
  l.map (fun p => (p.1, { date := p.1, status := p.2, timestamp := 0 }))

/-- A plain daily habit owned by user u1. -/
def baseHabit : Habit :=
  { id := "h1", userId := "u1", groupId := none, title := "Read",
    frequency := HabitFrequency.DAILY, durationMinutes := none,
    targetDaysPerWeek := none, intervalDays := none, logs := [],
    completed := false, createdAt := 0 }

/-- DONE yesterday only, nothing today. -/
def gapHabit : Habit := { baseHabit with logs := mkLogs [(-1, HabitStatus.DONE)] }

/-- A weekly habit with target 1 whose quota is already met on day 0. -/
def weeklyMetHabit : Habit :=
  { baseHabit with
    frequency := HabitFrequency.WEEKLY
    targetDaysPerWeek := some 1
    logs := mkLogs [(0, HabitStatus.DONE)] }

/-- A weekly habit with target 2 and DONE logs on days 0 and 1. -/
def weeklyTwoHabit : Habit :=
  { baseHabit with
    frequency := HabitFrequency.WEEKLY
    targetDaysPerWeek := some 2
    logs := mkLogs [(0, HabitStatus.DONE), (1, HabitStatus.DONE)] }

/-- A habit owned by a different user. -/
def bobHabit : Habit := { baseHabit with userId := "bob" }

/-! Streak calculator lemmas. -/

theorem backStreak_le (logs : List (Int × Log)) (fuel : Nat) (d : Int) :
    backStreak logs fuel d ≤ fuel := by
  induction fuel generalizing d with
  | zero => simp [backStreak]
  | succ n ih =>
    rw [backStreak]
    split
    · exact Nat.succ_le_succ (ih (d - 1))
    · exact Nat.zero_le _

theorem backStreak_done (logs : List (Int × Log)) (fuel : Nat) (d : Int) :
    ∀ j : Nat, j < backStreak logs fuel d →
      logStatus logs (d - (j : Int)) = some HabitStatus.DONE := by
  induction fuel generalizing d with
  | zero => simp [backStreak]
  | succ n ih =>
    rw [backStreak]
    split
    · intro j hj
      match j with
      | 0 => simpa using (by assumption)
      | Nat.succ k =>
        have hk := ih (d - 1) k (by omega)
        have : d - ((k + 1 : Nat) : Int) = d - 1 - (k : Int) := by push_cast; ring
        rw [this]
        exact hk
    · intro j hj
      omega

theorem backStreak_stop (logs : List (Int × Log)) (fuel : Nat) (d : Int)
    (h : backStreak logs fuel d < fuel) :
    ¬ logStatus logs (d - (backStreak logs fuel d : Int)) = some HabitStatus.DONE := by
  induction fuel generalizing d with
  | zero => omega
  | succ n ih =>
    rw [backStreak] at h ⊢
    split at h
    · rename_i hdone
      rw [if_pos hdone]
      have hlt : backStreak logs n (d - 1) < n := by omega
      have := ih (d - 1) hlt
      have heq : d - ((backStreak logs n (d - 1) + 1 : Nat) : Int)
          = d - 1 - (backStreak logs n (d - 1) : Int) := by push_cast; ring
      rw [heq]
      exact this
    · rename_i hdone
      rw [if_neg hdone]
      simpa using hdone

theorem done_run_le_length (logs : List (Int × Log)) (d : Int) (k : Nat)
    (h : ∀ j : Nat, j < k → logStatus logs (d - (j : Int)) = some HabitStatus.DONE) :
    k ≤ logs.length := by
  have hmem : ∀ j : Nat, j < k → (d - (j : Int)) ∈ logs.map Prod.fst := by
    intro j hj
    have := h j hj
    unfold logStatus acLookup at this
    cases hf : logs.find? (fun p => decide (p.1 = d - (j : Int))) with
    | none => rw [hf] at this; simp at this
    | some p =>
      have hp := List.find?_some hf
      have hpm := List.mem_of_find?_eq_some hf
      simp at hp
      exact hp ▸ List.mem_map_of_mem Prod.fst hpm
  have hinj : Function.Injective (fun j : Nat => d - (j : Int)) := by
    intro a b hab
    simp only at hab
    omega
  have hcard : ((Finset.range k).image (fun j : Nat => d - (j : Int))).card = k := by
    rw [Finset.card_image_of_injective _ hinj, Finset.card_range]
  have hsub : (Finset.range k).image (fun j : Nat => d - (j : Int))
      ⊆ (logs.map Prod.fst).toFinset := by
    intro x hx
    simp only [Finset.mem_image, Finset.mem_range] at hx
    obtain ⟨j, hj, rfl⟩ := hx
    exact List.mem_toFinset.mpr (hmem j hj)
  calc k = ((Finset.range k).image (fun j : Nat => d - (j : Int))).card := hcard.symm
    _ ≤ (logs.map Prod.fst).toFinset.card := Finset.card_le_card hsub
    _ ≤ (logs.map Prod.fst).length := (logs.map Prod.fst).toFinset_card_le
    _ = logs.length := List.length_map _ _

theorem backStreak_full_stop (logs : List (Int × Log)) (d : Int) :
    ¬ logStatus logs (d - (backStreak logs logs.length d : Int))
        = some HabitStatus.DONE := by
  rcases Nat.lt_or_ge (backStreak logs logs.length d) logs.length with hlt | hge
  · exact backStreak_stop logs logs.length d hlt
  · intro hdone
    have hrun : ∀ j : Nat, j < backStreak logs logs.length d + 1 →
        logStatus logs (d - (j : Int)) = some HabitStatus.DONE := by
      intro j hj
      rcases Nat.lt_or_ge j (backStreak logs logs.length d) with hj2 | hj2
      · exact backStreak_done logs logs.length d j hj2
      · have : j = backStreak logs logs.length d := by omega
        rw [this]
        exact hdone
    have := done_run_le_length logs d (backStreak logs logs.length d + 1) hrun
    omega

/-- C2 corrected: the backward scan of the streak calculator runs whether or
not today is DONE.  The streak equals one point for a DONE today plus the
length m of the maximal run of consecutive DONE days ending at yesterday:
every day from yesterday back through m days is DONE, and the day before
that run is not DONE (absent, NOT_DONE, or a stored PENDING). -/
theorem streak_characterisation (habit : Habit) (today : Int) :
    ∃ m : Nat,
      calculateStreak habit today
        = (if logStatus habit.logs today = some HabitStatus.DONE then 1 else 0) + m ∧
      (∀ j : Nat, j < m →
        logStatus habit.logs (today - 1 - (j : Int)) = some HabitStatus.DONE) ∧
      ¬ logStatus habit.logs (today - 1 - (m : Int)) = some HabitStatus.DONE := by
  refine ⟨backStreak habit.logs habit.logs.length (today - 1), rfl, ?_, ?_⟩
  · intro j hj
    exact backStreak_done habit.logs habit.logs.length (today - 1) j hj
  · exact backStreak_full_stop habit.logs (today - 1)

/-- C2 counterexample: a habit whose only log is a DONE entry yesterday has
streak 1 in the source, while the algorithm stated in the claim (scan
backward only when today is DONE) yields 0. -/
theorem streak_claim_counterexample :
    calculateStreak gapHabit 0 = 1 ∧ claimStreak gapHabit 0 = 0 := by
  constructor <;> decide

/-- C1 corrected: the toggle operation issues the habit write exactly when
the habit is present in the merged local view and not archived; it performs
no ownership check and no actionability re-validation of its own. -/
theorem toggle_write_iff (habits : List Habit) (uid habitId : String)
    (d : Int) (ms : Nat) :
    toggleHabitStatus habits (some uid) habitId d ms ≠ none
      ↔ ∃ h, habits.find? (fun h => decide (h.id = habitId)) = some h
          ∧ h.completed = false := by
  unfold toggleHabitStatus
  cases hf : habits.find? (fun h => decide (h.id = habitId)) with
  | none => simp
  | some h =>
    by_cases hc : h.completed
    · simp [hc]
    · simp only [hc, if_false, Bool.false_eq_true]
      constructor
      · intro _
        exact ⟨h, rfl, by simp [hc]⟩
      · intro _
        split <;> simp
        split <;> simp

/-- C1 counterexample: a write is issued for a habit the acting user does
not own, and for a date the Actionability Evaluator currently disables
(weekly target met), refuting the claimed preconditions. -/
theorem toggle_precondition_counterexample :
    (toggleHabitStatus [bobHabit] (some "alice") "h1" 0 5).isSome = true ∧
    (isHabitActionable weeklyMetHabit ⟨1, 0⟩ ⟨6, 0⟩).enabled = false ∧
    (toggleHabitStatus [weeklyMetHabit] (some "u1") "h1" 1 5).isSome = true := by
  refine ⟨by decide, by decide, by decide⟩

/-! C7: the future guard compares full timestamps, not calendar days. -/

theorem wait_string_ne_future (s : String) : ("Wait " ++ s ++ " days") ≠ "Future" := by
  intro h
  have hl := congrArg String.length h
  simp only [String.length_append] at hl
  have h5 : ("Wait " : String).length = 5 := by decide
  have h5b : (" days" : String).length = 5 := by decide
  have h6 : ("Future" : String).length = 6 := by decide
  omega

/-- C7 corrected: the Actionability Evaluator rejects a target as Future
exactly when its full timestamp is strictly after now; for a start-of-day
target (as the habit grid passes) this coincides with comparing calendar
days, but a target on today with a time component after now is rejected. -/
theorem future_guard_iff (h : Habit) (date now : DateTime) :
    (isHabitActionable h date now = { enabled := false, reason := some "Future" }
       ↔ dtLTb now date = true) ∧
    (date.sec = 0 →
      (isHabitActionable h date now = { enabled := false, reason := some "Future" }
         ↔ now.day < date.day)) := by
  have main : isHabitActionable h date now = { enabled := false, reason := some "Future" }
      ↔ dtLTb now date = true := by
    constructor
    · intro heq
      by_contra hnot
      have hfalse : dtLTb now date = false := by
        cases hv : dtLTb now date
        · rfl
        · exact absurd hv hnot
      unfold isHabitActionable at heq
      rw [hfalse] at heq
      simp only [Bool.false_eq_true, if_false] at heq
      split at heq
      · split at heq
        · have hr := congrArg ActionResult.reason heq
          simp only [Option.some_inj] at hr
          exact absurd hr (by decide)
        · have hr := congrArg ActionResult.enabled heq
          simp at hr
      · split at heq
        · split at heq
          · have hr := congrArg ActionResult.reason heq
            simp only [Option.some_inj] at hr
            exact wait_string_ne_future _ hr
          · have hr := congrArg ActionResult.enabled heq
            simp at hr
        · have hr := congrArg ActionResult.enabled heq
          simp at hr
    · intro hlt
      unfold isHabitActionable
      rw [hlt]
      simp
  refine ⟨main, fun hsec => ?_⟩
  rw [main]
  unfold dtLTb
  rw [hsec]
  constructor
  · intro hb
    rcases Bool.or_eq_true _ _ |>.mp hb with h1 | h2
    · exact of_decide_eq_true h1
    · have h3 := Bool.and_eq_true _ _ |>.mp h2
      have h4 := of_decide_eq_true h3.2
      omega
  · intro hlt
    have : (now.day < date.day : Bool) = true := decide_eq_true hlt
    simp [this]

/-- C7 counterexample: a target on today at second 100, evaluated at second
50 of the same day, is rejected as Future even though its calendar day is
today, refuting the claim that the comparison is by calendar day only. -/
theorem future_guard_counterexample :
    isHabitActionable baseHabit ⟨0, 100⟩ ⟨0, 50⟩
        = { enabled := false, reason := some "Future" } ∧
    (⟨0, 100⟩ : DateTime).day = (⟨0, 50⟩ : DateTime).day := by
  refine ⟨by decide, rfl⟩

/-- C10 confirmed: with the frequency parameter absent, the Actionability
Evaluator substitutes 2 for a missing intervalDays while the Scoring Engine
substitutes 1, and both substitute 1 for a missing targetDaysPerWeek. -/
theorem missing_field_defaults :
    (∀ (h : Habit) (date now : DateTime),
      isHabitActionable { h with intervalDays := none } date now
        = isHabitActionable { h with intervalDays := some 2 } date now) ∧
    (∀ (h : Habit) (w : List Int),
      habitPoints { h with intervalDays := none } w
        = habitPoints { h with intervalDays := some 1 } w) ∧
    (∀ (h : Habit) (date now : DateTime),
      isHabitActionable { h with targetDaysPerWeek := none } date now
        = isHabitActionable { h with targetDaysPerWeek := some 1 } date now) ∧
    (∀ (h : Habit) (w : List Int),
      habitPoints { h with targetDaysPerWeek := none } w
        = habitPoints { h with targetDaysPerWeek := some 1 } w) := by
  refine ⟨?_, ?_, ?_, ?_⟩
  · intro h date now
    simp [isHabitActionable, jsOr]
  · intro h w
    simp [habitPoints, jsOr]
  · intro h date now
    simp [isHabitActionable, jsOr]
  · intro h w
    simp [habitPoints, jsOr]

/-! C3: WEEKLY actionability. -/

/-- Count of DONE logs within the Monday-start week containing day d, as the
claim words it. -/
def weekDoneCount (logs : List (Int × Log)) (d : Int) : Nat :=
  ((weekDaysFrom (startOfWeek d)).filter
    (fun x => decide (logStatus logs x = some HabitStatus.DONE))).length

theorem weekFold_fst (logs : List (Int × Log)) (target : Int) (days : List Int)
    (n : Nat) (b : Bool) :
    (days.foldl (weekStep logs target) (n, b)).1
      = n + (days.filter
          (fun d => decide (logStatus logs d = some HabitStatus.DONE))).length := by
  induction days generalizing n b with
  | nil => simp
  | cons x xs ih =>
    simp only [List.foldl_cons, List.filter_cons, weekStep]
    by_cases hx : logStatus logs x = some HabitStatus.DONE
    · rw [if_pos hx, decide_eq_true hx, if_pos rfl]
      rw [ih]
      simp only [List.length_cons]
      omega
    · rw [if_neg hx, decide_eq_false hx]
      simp only [Bool.false_eq_true, if_false]
      rw [ih]

theorem weekFold_snd (logs : List (Int × Log)) (target : Int) (days : List Int)
    (n : Nat) (b : Bool) :
    (days.foldl (weekStep logs target) (n, b)).2
      = (b || days.any
          (fun d => decide (logStatus logs d = some HabitStatus.DONE) && (d == target))) := by
  induction days generalizing n b with
  | nil => simp
  | cons x xs ih =>
    simp only [List.foldl_cons, List.any_cons, weekStep]
    by_cases hx : logStatus logs x = some HabitStatus.DONE
    · rw [if_pos hx, decide_eq_true hx]
      simp only [Bool.true_and]
      rw [ih]
      cases b <;> cases (x == target) <;> simp
    · rw [if_neg hx, decide_eq_false hx]
      simp only [Bool.false_and, Bool.false_or]
      rw [ih]

theorem target_mem_own_week (d : Int) : d ∈ weekDaysFrom (startOfWeek d) := by
  have h0 : 0 ≤ d % 7 := Int.emod_nonneg d (by norm_num)
  have h7 : d % 7 < 7 := Int.emod_lt_of_pos d (by norm_num)
  have hcast : ((d % 7).toNat : Int) = d % 7 := Int.toNat_of_nonneg h0
  simp only [weekDaysFrom, List.mem_map, List.mem_range]
  refine ⟨(d % 7).toNat, ?_, ?_⟩
  · omega
  · rw [Int.ofNat_eq_natCast]
    unfold startOfWeek
    omega

theorem weekScan_snd_eq (logs : List (Int × Log)) (d : Int) :
    (weekScan logs (startOfWeek d) d).2
      = decide (logStatus logs d = some HabitStatus.DONE) := by
  unfold weekScan
  rw [weekFold_snd]
  simp only [Bool.false_or]
  by_cases hd : logStatus logs d = some HabitStatus.DONE
  · rw [decide_eq_true hd]
    refine List.any_eq_true.mpr ⟨d, target_mem_own_week d, ?_⟩
    simp [hd]
  · rw [decide_eq_false hd]
    refine List.any_eq_false.mpr ?_
    intro x _
    by_cases hx : x = d
    · subst hx
      simp [hd]
    · simp [hx]

theorem weekScan_fst_eq (logs : List (Int × Log)) (d : Int) :
    (weekScan logs (startOfWeek d) d).1 = weekDoneCount logs d := by
  unfold weekScan weekDoneCount
  rw [weekFold_fst]
  simp

/-- C3 confirmed: for a WEEKLY habit with a present nonzero target and a
non-future target date, the evaluator is enabled when the target date itself
carries a DONE log; otherwise it is disabled with reason Weekly target met
exactly when the count of DONE logs in the Monday-start week of the target
has reached the target, and enabled otherwise. -/
theorem weekly_actionability (habit : Habit) (date now : DateTime) (t : Nat)
    (hf : habit.frequency = HabitFrequency.WEEKLY)
    (ht : habit.targetDaysPerWeek = some t) (ht0 : t ≠ 0)
    (hnf : dtLTb now date = false) :
    isHabitActionable habit date now =
      if logStatus habit.logs date.day = some HabitStatus.DONE then
        { enabled := true, reason := none }
      else if t ≤ weekDoneCount habit.logs date.day then
        { enabled := false, reason := some "Weekly target met" }
      else { enabled := true, reason := none } := by
  unfold isHabitActionable
  rw [hnf, hf, ht]
  have hjs : jsOr (some t) 1 = t := by simp [jsOr, ht0]
  simp only [Bool.false_eq_true, if_false, if_pos rfl, hjs,
    weekScan_fst_eq, weekScan_snd_eq]
  by_cases hd : logStatus habit.logs date.day = some HabitStatus.DONE
  · rw [decide_eq_true hd, if_pos hd]
    simp
  · rw [decide_eq_false hd, if_neg hd]
    by_cases hc : t ≤ weekDoneCount habit.logs date.day
    · rw [if_pos hc]
      simp [hc]
    · rw [if_neg hc]
      simp [hc]

/-- Witness for C3 at the test vector of the spec: target 2, two DONE days
already this week; a third day of the same week is disabled with Weekly
target met, while an already-DONE day stays enabled. -/
theorem weekly_actionability_witness :
    isHabitActionable weeklyTwoHabit ⟨2, 0⟩ ⟨6, 0⟩
        = { enabled := false, reason := some "Weekly target met" } ∧
    isHabitActionable weeklyTwoHabit ⟨1, 0⟩ ⟨6, 0⟩
        = { enabled := true, reason := none } := by
  constructor
  · rw [weekly_actionability weeklyTwoHabit ⟨2, 0⟩ ⟨6, 0⟩ 2 rfl rfl
      (by decide) (by decide)]
    decide
  · rw [weekly_actionability weeklyTwoHabit ⟨1, 0⟩ ⟨6, 0⟩ 2 rfl rfl
      (by decide) (by decide)]
    decide

/-! C9: the last-admin invariant. -/

theorem exists_other_mem (l : List String) (u : String) (hnd : l.Nodup)
    (hlen : 2 ≤ l.length) (hu : u ∈ l) : ∃ b ∈ l, b ≠ u := by
  match l, hlen with
  | a :: c :: t, _ =>
    by_cases ha : a = u
    · subst ha
      have hnotin : a ∉ c :: t := (List.nodup_cons.mp hnd).1
      refine ⟨c, by simp, ?_⟩
      intro hcu
      exact hnotin (hcu ▸ List.mem_cons_self c t)
    · exact ⟨a, by simp, ha⟩

theorem mem_filter_ne (l : List String) (u b : String) (hb : b ∈ l) (hne : b ≠ u) :
    b ∈ l.filter (fun i => decide (i ≠ u)) :=
  List.mem_filter.mpr ⟨hb, by simp [hne]⟩

/-- C9 confirmed: a group whose admins list is a single admin rejects both
demoting and removing that admin with no write; whenever a demotion or a
removal does issue a write (admins without duplicates, and nonempty for
removal), another admin remains in the written admins list. -/
theorem admin_invariant :
    (∀ (g : Group) (a : String), g.admins = [a] →
      handleDemoteAdmin g a = none ∧ handleRemoveMember g a = none) ∧
    (∀ (g : Group) (u : String) (res : List String), g.admins.Nodup →
      handleDemoteAdmin g u = some res → ∃ b ∈ res, b ≠ u) ∧
    (∀ (g : Group) (u : String) (ms as : List String), g.admins.Nodup →
      g.admins ≠ [] → handleRemoveMember g u = some (ms, as) →
      ∃ b ∈ as, b ≠ u) := by
  refine ⟨?_, ?_, ?_⟩
  · intro g a ha
    unfold handleDemoteAdmin handleRemoveMember
    rw [ha]
    simp
  · intro g u res hnd hsome
    unfold handleDemoteAdmin at hsome
    by_cases hmem : u ∈ g.admins
    · rw [if_pos hmem] at hsome
      by_cases hlen : 1 < g.admins.length
      · rw [if_pos hlen] at hsome
        obtain ⟨b, hb, hbne⟩ := exists_other_mem g.admins u hnd (by omega) hmem
        have := mem_filter_ne g.admins u b hb hbne
        rw [Option.some_inj] at hsome
        exact ⟨b, hsome ▸ this, hbne⟩
      · rw [if_neg hlen] at hsome
        exact absurd hsome (by simp)
    · rw [if_neg hmem] at hsome
      exact absurd hsome (by simp)
  · intro g u ms as hnd hne hsome
    unfold handleRemoveMember at hsome
    by_cases hg : u ∈ g.admins ∧ g.admins.length = 1
    · rw [if_pos hg] at hsome
      exact absurd hsome (by simp)
    · rw [if_neg hg] at hsome
      rw [Option.some_inj, Prod.mk.injEq] at hsome
      obtain ⟨-, has⟩ := hsome
      by_cases hu : u ∈ g.admins
      · have hlen1 : g.admins.length ≠ 1 := fun h1 => hg ⟨hu, h1⟩
        have hlen : 2 ≤ g.admins.length := by
          have hpos : 0 < g.admins.length := List.length_pos.mpr hne
          omega
        obtain ⟨b, hb, hbne⟩ := exists_other_mem g.admins u hnd hlen hu
        exact ⟨b, has ▸ mem_filter_ne g.admins u b hb hbne, hbne⟩
      · obtain ⟨b, hb⟩ := List.exists_mem_of_ne_nil g.admins hne
        have hbne : b ≠ u := fun hbu => hu (hbu ▸ hb)
        exact ⟨b, has ▸ mem_filter_ne g.admins u b hb hbne, hbne⟩

/-- A group whose only admin is member a. -/
def soloAdminGroup : Group :=
  { id := "g1", name := "G", members := ["a", "b"], admins := ["a"],
    inviteCode := "X" }

/-- Witness for C9: the sole admin of a concrete group can be neither
demoted nor removed. -/
theorem admin_invariant_witness :
    handleDemoteAdmin soloAdminGroup "a" = none ∧
    handleRemoveMember soloAdminGroup "a" = none :=
  admin_invariant.1 soloAdminGroup "a" rfl

/-! C4: the Scoring Engine against the formula stated by the spec. -/

/-- The 7-day window of days 0 through 6. -/
def weekWindow : List Int := [0, 1, 2, 3, 4, 5, 6]

/-- A daily habit with 5 DONE days inside the 7-day window. -/
def fiveOfSevenHabit : Habit :=
  { baseHabit with
    logs := mkLogs [(0, HabitStatus.DONE), (1, HabitStatus.DONE),
      (2, HabitStatus.DONE), (3, HabitStatus.DONE), (4, HabitStatus.DONE)] }

/-- Expected completions of one habit over a window, as the claim words it:
WEEKLY pro-rates the weekly target over the window, INTERVAL divides the
window length by the interval, DAILY expects every day. -/
def claimExpected (h : Habit) (wLen : ℚ) : ℚ :=
  match h.frequency with
  | HabitFrequency.WEEKLY => (wLen / 7) * ((h.targetDaysPerWeek.getD 1 : Nat) : ℚ)
  | HabitFrequency.INTERVAL => wLen / ((h.intervalDays.getD 1 : Nat) : ℚ)
  | _ => wLen

/-- Total points as the claim words it: the sum of expected completions,
with the WEEKLY expectation floored to a minimum of 1. -/
def claimTotalPoints (hs : List Habit) (wLen : ℚ) : ℚ :=
  (hs.map (fun h =>
    if h.frequency = HabitFrequency.WEEKLY then max 1 (claimExpected h wLen)
    else claimExpected h wLen)).sum

/-- Earned points as the claim words it: the sum of actual completions,
capped at the (unfloored) expectation for WEEKLY habits and uncapped
otherwise. -/
def claimEarnedPoints (hs : List Habit) (window : List Int) : ℚ :=
  (hs.map (fun h =>
    if h.frequency = HabitFrequency.WEEKLY then
      min ((doneCountInWindow h.logs window : Nat) : ℚ)
        (claimExpected h (window.length : ℚ))
    else ((doneCountInWindow h.logs window : Nat) : ℚ))).sum

/-- The score as the claim words it: round(100 * earned / total), or 0 when
the total is 0. -/
def claimScore (relevantHabits : List Habit) (memberId : String)
    (window : List Int) : Int :=
  let hs := relevantHabits.filter (fun h => decide (h.userId = memberId))
  if claimTotalPoints hs (window.length : ℚ) = 0 then 0
  else round (100 * claimEarnedPoints hs window / claimTotalPoints hs (window.length : ℚ))

theorem jsOr_eq_getD (o : Option Nat) (d : Nat) (h : o ≠ some 0) :
    jsOr o d = o.getD d := by
  cases o with
  | none => rfl
  | some v =>
    have hv : v ≠ 0 := fun h0 => h (by rw [h0])
    simp [jsOr, hv]

theorem habitPoints_fst_eq (h : Habit) (w : List Int)
    (h1 : h.targetDaysPerWeek ≠ some 0) (h2 : h.intervalDays ≠ some 0)
    (h3 : h.frequency ≠ HabitFrequency.SPECIFIC_DAYS) :
    (habitPoints h w).1
      = (if h.frequency = HabitFrequency.WEEKLY then
          max 1 (claimExpected h (w.length : ℚ))
        else claimExpected h (w.length : ℚ)) := by
  have hjt := jsOr_eq_getD h.targetDaysPerWeek 1 h1
  have hji := jsOr_eq_getD h.intervalDays 1 h2
  unfold habitPoints claimExpected
  cases hf : h.frequency with
  | WEEKLY => simp [hjt]
  | INTERVAL => simp [hji]
  | DAILY => simp
  | SPECIFIC_DAYS => exact absurd hf h3

theorem habitPoints_snd_eq (h : Habit) (w : List Int)
    (h1 : h.targetDaysPerWeek ≠ some 0) :
    (habitPoints h w).2
      = (if h.frequency = HabitFrequency.WEEKLY then
          min ((doneCountInWindow h.logs w : Nat) : ℚ)
            (claimExpected h (w.length : ℚ))
        else ((doneCountInWindow h.logs w : Nat) : ℚ)) := by
  have hjt := jsOr_eq_getD h.targetDaysPerWeek 1 h1
  unfold habitPoints claimExpected
  cases hf : h.frequency with
  | WEEKLY => simp [hjt]
  | INTERVAL => simp
  | DAILY => simp
  | SPECIFIC_DAYS => simp

theorem foldl_points_eq (w : List Int) (hs : List Habit) (a b : ℚ) :
    hs.foldl (fun (acc : ℚ × ℚ) h =>
        let p := habitPoints h w
        (acc.1 + p.1, acc.2 + p.2)) (a, b)
      = (a + (hs.map (fun h => (habitPoints h w).1)).sum,
         b + (hs.map (fun h => (habitPoints h w).2)).sum) := by
  induction hs generalizing a b with
  | nil => simp
  | cons x xs ih =>
    simp only [List.foldl_cons, List.map_cons, List.sum_cons]
    rw [ih]
    simp only [Prod.mk.injEq]
    constructor <;> ring

/-- C4 confirmed: the Scoring Engine computes exactly the score stated in
the spec (for habits whose frequency parameters are never the falsy 0 and
whose frequency is one of the three documented kinds), and the 5-of-7 DAILY
example scores 71. -/
theorem scoring_refinement :
    (∀ (rel : List Habit) (mid : String) (w : List Int),
      (∀ h ∈ rel, h.targetDaysPerWeek ≠ some 0 ∧ h.intervalDays ≠ some 0 ∧
        h.frequency ≠ HabitFrequency.SPECIFIC_DAYS) →
      getGroupStats rel mid w = claimScore rel mid w) ∧
    getGroupStats [fiveOfSevenHabit] "u1" weekWindow = 71 ∧
    round ((100 : ℚ) * 5 / 7) = 71 := by
  have hround : round ((100 : ℚ) * 5 / 7) = 71 := by
    rw [round_eq]
    rw [show (100 : ℚ) * 5 / 7 + 1 / 2 = 1007 / 14 by norm_num]
    rw [Int.floor_eq_iff]
    norm_num
  have hconc : getGroupStats [fiveOfSevenHabit] "u1" weekWindow = 71 := by
    have hv : getGroupStats [fiveOfSevenHabit] "u1" weekWindow
        = round ((100 : ℚ) * 5 / 7) := by
      simp [getGroupStats, habitPoints, fiveOfSevenHabit, baseHabit, weekWindow,
        mkLogs, doneCountInWindow, jsOr]
      norm_num
    rw [hv, hround]
  refine ⟨?_, hconc, hround⟩
  intro rel mid w hh
  simp only [getGroupStats, claimScore]
  have hsub : ∀ h ∈ rel.filter (fun h => decide (h.userId = mid)), h ∈ rel := by
    intro h hmem
    exact (List.mem_filter.mp hmem).1
  set hs := rel.filter (fun h => decide (h.userId = mid)) with hhs
  have hfst : (hs.map (fun h => (habitPoints h w).1)).sum
      = claimTotalPoints hs (w.length : ℚ) := by
    unfold claimTotalPoints
    congr 1
    refine List.map_congr_left ?_
    intro h hmem
    have hcond := hh h (hsub h hmem)
    exact habitPoints_fst_eq h w hcond.1 hcond.2.1 hcond.2.2
  have hsnd : (hs.map (fun h => (habitPoints h w).2)).sum
      = claimEarnedPoints hs w := by
    unfold claimEarnedPoints
    congr 1
    refine List.map_congr_left ?_
    intro h hmem
    exact habitPoints_snd_eq h w (hh h (hsub h hmem)).1
  by_cases hlen : hs.length = 0
  · rw [if_pos hlen]
    have hnil : hs = [] := List.length_eq_zero.mp hlen
    rw [hnil]
    unfold claimTotalPoints
    simp
  · rw [if_neg hlen, foldl_points_eq]
    simp only [zero_add]
    rw [hfst, hsnd]
    by_cases htot : claimTotalPoints hs (w.length : ℚ) = 0
    · rw [if_pos htot, if_pos htot]
    · rw [if_neg htot, if_neg htot]
      congr 1
      ring

/-- Witness for C4: the refinement applied to the concrete 5-of-7 DAILY
habit. -/
theorem scoring_refinement_witness :
    getGroupStats [fiveOfSevenHabit] "u1" weekWindow
      = claimScore [fiveOfSevenHabit] "u1" weekWindow :=
  scoring_refinement.1 [fiveOfSevenHabit] "u1" weekWindow (by decide)

/-! C8: the two-channel habit-feed merge. -/

theorem acLookup_cons_eq {κ α : Type} [DecidableEq κ] (p : κ × α)
    (t : List (κ × α)) (k : κ) (h : p.1 = k) :
    acLookup (p :: t) k = some p.2 := by
  unfold acLookup
  rw [List.find?_cons_of_pos _ (by simp [h])]
  rfl

theorem acLookup_cons_ne {κ α : Type} [DecidableEq κ] (p : κ × α)
    (t : List (κ × α)) (k : κ) (h : p.1 ≠ k) :
    acLookup (p :: t) k = acLookup t k := by
  unfold acLookup
  rw [List.find?_cons_of_neg _ (by simp [h])]

theorem acLookup_filter_ne {κ α : Type} [DecidableEq κ] (m : List (κ × α))
    (k k' : κ) (hne : k' ≠ k) :
    acLookup (m.filter (fun p => decide (p.1 ≠ k))) k' = acLookup m k' := by
  induction m with
  | nil => rfl
  | cons p t ih =>
    simp only [List.filter_cons]
    by_cases hp : p.1 = k
    · rw [decide_eq_false (by simp [hp])]
      simp only [Bool.false_eq_true, if_false]
      rw [ih, acLookup_cons_ne p t k' (by rw [hp]; exact fun h => hne h.symm)]
    · rw [decide_eq_true (by simp [hp] : p.1 ≠ k), if_pos rfl]
      by_cases hk : p.1 = k'
      · rw [acLookup_cons_eq p _ k' hk, acLookup_cons_eq p t k' hk]
      · rw [acLookup_cons_ne p _ k' hk, acLookup_cons_ne p t k' hk, ih]

theorem acLookup_acInsert {κ α : Type} [DecidableEq κ] (m : List (κ × α))
    (k k' : κ) (v : α) :
    acLookup (acInsert m k v) k' = if k' = k then some v else acLookup m k' := by
  unfold acInsert
  by_cases hk : k' = k
  · rw [if_pos hk, hk]
    exact acLookup_cons_eq (k, v) _ k rfl
  · rw [if_neg hk, acLookup_cons_ne (k, v) _ k' (fun h => hk h.symm)]
    exact acLookup_filter_ne m k k' hk

theorem acLookup_acErase {κ α : Type} [DecidableEq κ] (m : List (κ × α))
    (k k' : κ) :
    acLookup (acErase m k) k' = if k' = k then none else acLookup m k' := by
  unfold acErase
  by_cases hk : k' = k
  · rw [if_pos hk]
    subst hk
    unfold acLookup
    rw [List.find?_eq_none.mpr ?_]
    · rfl
    · intro x hx
      have hmem := List.mem_filter.mp hx
      simp only [decide_eq_true_eq] at hmem ⊢
      exact hmem.2
  · rw [if_neg hk]
    exact acLookup_filter_ne m k k' hk

theorem foldl_applyChange_lookup (cs : List DocChange)
    (init : List (String × Habit)) (k : String) (h : Habit)
    (hl : acLookup (cs.foldl applyChange init) k = some h) :
    (∃ c ∈ cs, c.docId = k ∧ c.habit = h) ∨ acLookup init k = some h := by
  induction cs generalizing init with
  | nil => exact Or.inr hl
  | cons c cs ih =>
    rw [List.foldl_cons] at hl
    rcases ih (applyChange init c) hl with hcase | hcase
    · obtain ⟨c2, hc2, rest⟩ := hcase
      exact Or.inl ⟨c2, List.mem_cons_of_mem _ hc2, rest⟩
    · unfold applyChange at hcase
      cases hct : c.ctype with
      | added =>
        rw [hct, acLookup_acInsert] at hcase
        by_cases hk : k = c.docId
        · rw [if_pos hk, Option.some_inj] at hcase
          exact Or.inl ⟨c, List.mem_cons_self c cs, hk.symm, hcase⟩
        · rw [if_neg hk] at hcase
          exact Or.inr hcase
      | modified =>
        rw [hct, acLookup_acInsert] at hcase
        by_cases hk : k = c.docId
        · rw [if_pos hk, Option.some_inj] at hcase
          exact Or.inl ⟨c, List.mem_cons_self c cs, hk.symm, hcase⟩
        · rw [if_neg hk] at hcase
          exact Or.inr hcase
      | removed =>
        rw [hct, acLookup_acErase] at hcase
        by_cases hk : k = c.docId
        · rw [if_pos hk] at hcase
          exact absurd hcase (by simp)
        · rw [if_neg hk] at hcase
          exact Or.inr hcase

theorem foldl_applyGroupChange_lookup (uid : String) (cs : List DocChange)
    (init : List (String × Habit)) (k : String) (h : Habit)
    (hl : acLookup (cs.foldl (applyGroupChange uid) init) k = some h) :
    (∃ c ∈ cs, c.docId = k ∧ c.habit = h ∧ c.habit.userId ≠ uid)
      ∨ acLookup init k = some h := by
  induction cs generalizing init with
  | nil => exact Or.inr hl
  | cons c cs ih =>
    rw [List.foldl_cons] at hl
    rcases ih (applyGroupChange uid init c) hl with hcase | hcase
    · obtain ⟨c2, hc2, rest⟩ := hcase
      exact Or.inl ⟨c2, List.mem_cons_of_mem _ hc2, rest⟩
    · unfold applyGroupChange at hcase
      by_cases howner : c.habit.userId = uid
      · rw [if_pos howner] at hcase
        exact Or.inr hcase
      · rw [if_neg howner] at hcase
        unfold applyChange at hcase
        cases hct : c.ctype with
        | added =>
          rw [hct, acLookup_acInsert] at hcase
          by_cases hk : k = c.docId
          · rw [if_pos hk, Option.some_inj] at hcase
            exact Or.inl ⟨c, List.mem_cons_self c cs, hk.symm, hcase, howner⟩
          · rw [if_neg hk] at hcase
            exact Or.inr hcase
        | modified =>
          rw [hct, acLookup_acInsert] at hcase
          by_cases hk : k = c.docId
          · rw [if_pos hk, Option.some_inj] at hcase
            exact Or.inl ⟨c, List.mem_cons_self c cs, hk.symm, hcase, howner⟩
          · rw [if_neg hk] at hcase
            exact Or.inr hcase
        | removed =>
          rw [hct, acLookup_acErase] at hcase
          by_cases hk : k = c.docId
          · rw [if_pos hk] at hcase
            exact absurd hcase (by simp)
          · rw [if_neg hk] at hcase
            exact Or.inr hcase

/-- C8 confirmed: after any sequence of snapshot changes, the group-habit
map never holds a document owned by the current user (the listener skips
those), so although the object-spread merge lets the group map win on key
collision, the merged view returns the personal-channel value for every
habit held in the personal map — given that the personal feed only delivers
documents owned by the current user and that a document id carries one
consistent owner across both feeds. -/
theorem two_channel_merge :
    (∀ (uid : String) (gs : List DocChange) (k : String) (h : Habit),
      acLookup (buildGroupMap uid gs) k = some h → h.userId ≠ uid) ∧
    (∀ (uid : String) (ps gs : List DocChange),
      (∀ c ∈ ps, c.habit.userId = uid) →
      (∀ c ∈ ps, ∀ c2 ∈ gs, c.docId = c2.docId →
        c.habit.userId = c2.habit.userId) →
      ∀ (k : String) (h : Habit), acLookup (buildMyMap ps) k = some h →
        mergedLookup (buildMyMap ps) (buildGroupMap uid gs) k = some h) := by
  have part1 : ∀ (uid : String) (gs : List DocChange) (k : String) (h : Habit),
      acLookup (buildGroupMap uid gs) k = some h → h.userId ≠ uid := by
    intro uid gs k h hl
    unfold buildGroupMap at hl
    rcases foldl_applyGroupChange_lookup uid gs [] k h hl with
      ⟨c, _, _, hch, hne⟩ | hbad
    · exact hch ▸ hne
    · exact absurd hbad (by simp [acLookup])
  refine ⟨part1, ?_⟩
  intro uid ps gs hown hcons k h hl
  unfold mergedLookup
  cases hg : acLookup (buildGroupMap uid gs) k with
  | none => exact hl
  | some h2 =>
    exfalso
    unfold buildGroupMap at hg
    rcases foldl_applyGroupChange_lookup uid gs [] k h2 hg with
      ⟨c2, hc2mem, hc2id, hc2h, hc2ne⟩ | hbad
    · unfold buildMyMap at hl
      rcases foldl_applyChange_lookup ps [] k h hl with
        ⟨c, hcmem, hcid, hch⟩ | hbad2
      · have hsame := hcons c hcmem c2 hc2mem (by rw [hcid, hc2id])
        exact hc2ne (by rw [← hsame]; exact hown c hcmem)
      · exact absurd hbad2 (by simp [acLookup])
    · exact absurd hbad (by simp [acLookup])

/-- A group habit owned by another user. -/
def bobGroupHabit : Habit := { bobHabit with id := "h2", groupId := some "g1" }

/-- Witness for C8: with one personal change for habit h1 and one group
change for another member, the merged view serves the personal value of h1. -/
theorem two_channel_merge_witness :
    mergedLookup (buildMyMap [⟨ChangeType.added, "h1", baseHabit⟩])
        (buildGroupMap "u1" [⟨ChangeType.added, "h2", bobGroupHabit⟩]) "h1"
      = some baseHabit :=
  two_channel_merge.2 "u1" [⟨ChangeType.added, "h1", baseHabit⟩]
    [⟨ChangeType.added, "h2", bobGroupHabit⟩]
    (by decide) (by decide) "h1" baseHabit (by decide)

/-! C5 and C6: the achievement and notification scan. -/

/-- Number of achievements in a list carrying a given id triple. -/
def achKeyCount (l : List Achievement) (uid hid : String) (m : Nat) : Nat :=
  (l.filter (achMatches uid hid m)).length

theorem achKeyCount_append (l1 l2 : List Achievement) (uid hid : String) (m : Nat) :
    achKeyCount (l1 ++ l2) uid hid m
      = achKeyCount l1 uid hid m + achKeyCount l2 uid hid m := by
  simp [achKeyCount, List.filter_append]

theorem achKeyCount_eq_zero_iff (l : List Achievement) (uid hid : String) (m : Nat) :
    achKeyCount l uid hid m = 0 ↔ l.any (achMatches uid hid m) = false := by
  unfold achKeyCount
  rw [List.length_eq_zero, List.filter_eq_nil_iff, List.any_eq_false]

theorem scanMilestoneStep_any_fst (uid : String) (habit : Habit) (streak : Nat)
    (achs : List Achievement) (nowMs : Nat)
    (acc : List Notification × List Achievement) (m : Nat × String)
    (p : Notification → Bool) (h : acc.1.any p = true) :
    (scanMilestoneStep uid habit streak achs nowMs acc m).1.any p = true := by
  unfold scanMilestoneStep
  split
  · split
    · simp only [List.any_append, h, Bool.true_or]
    · exact h
  · exact h

theorem scanMilestoneStep_any_snd (uid : String) (habit : Habit) (streak : Nat)
    (achs : List Achievement) (nowMs : Nat)
    (acc : List Notification × List Achievement) (m : Nat × String)
    (p : Achievement → Bool) (h : acc.2.any p = true) :
    (scanMilestoneStep uid habit streak achs nowMs acc m).2.any p = true := by
  unfold scanMilestoneStep
  split
  · split
    · simp only [List.any_append, h, Bool.true_or]
    · exact h
  · exact h

theorem milestoneFold_any_fst (uid : String) (habit : Habit) (streak : Nat)
    (achs : List Achievement) (nowMs : Nat) (ms : List (Nat × String))
    (acc : List Notification × List Achievement)
    (p : Notification → Bool) (h : acc.1.any p = true) :
    (ms.foldl (scanMilestoneStep uid habit streak achs nowMs) acc).1.any p = true := by
  induction ms generalizing acc with
  | nil => exact h
  | cons m ms ih =>
    rw [List.foldl_cons]
    exact ih _ (scanMilestoneStep_any_fst uid habit streak achs nowMs acc m p h)

theorem milestoneFold_any_snd (uid : String) (habit : Habit) (streak : Nat)
    (achs : List Achievement) (nowMs : Nat) (ms : List (Nat × String))
    (acc : List Notification × List Achievement)
    (p : Achievement → Bool) (h : acc.2.any p = true) :
    (ms.foldl (scanMilestoneStep uid habit streak achs nowMs) acc).2.any p = true := by
  induction ms generalizing acc with
  | nil => exact h
  | cons m ms ih =>
    rw [List.foldl_cons]
    exact ih _ (scanMilestoneStep_any_snd uid habit streak achs nowMs acc m p h)

theorem riskStep_any_fst (uid : String) (nots : List Notification) (habit : Habit)
    (streak : Nat) (today : Int) (nowSec : Nat)
    (acc : List Notification × List Achievement)
    (p : Notification → Bool) (h : acc.1.any p = true) :
    (riskStep uid nots habit streak today nowSec acc).1.any p = true := by
  unfold riskStep
  split
  · simp only [List.any_append, h, Bool.true_or]
  · exact h

theorem riskStep_snd (uid : String) (nots : List Notification) (habit : Habit)
    (streak : Nat) (today : Int) (nowSec : Nat)
    (acc : List Notification × List Achievement) :
    (riskStep uid nots habit streak today nowSec acc).2 = acc.2 := by
  unfold riskStep
  split <;> rfl

theorem scanHabitStep_any_fst (uid : String) (nots : List Notification)
    (achs : List Achievement) (today : Int) (nowSec nowMs : Nat)
    (acc : List Notification × List Achievement) (habit : Habit)
    (p : Notification → Bool) (h : acc.1.any p = true) :
    (scanHabitStep uid nots achs today nowSec nowMs acc habit).1.any p = true := by
  unfold scanHabitStep
  exact milestoneFold_any_fst _ _ _ _ _ _ _ p
    (riskStep_any_fst uid nots habit _ today nowSec acc p h)

theorem scanHabitStep_any_snd (uid : String) (nots : List Notification)
    (achs : List Achievement) (today : Int) (nowSec nowMs : Nat)
    (acc : List Notification × List Achievement) (habit : Habit)
    (p : Achievement → Bool) (h : acc.2.any p = true) :
    (scanHabitStep uid nots achs today nowSec nowMs acc habit).2.any p = true := by
  unfold scanHabitStep
  refine milestoneFold_any_snd _ _ _ _ _ _ _ p ?_
  rw [riskStep_snd]
  exact h

theorem scanFold_any_fst (uid : String) (nots : List Notification)
    (achs : List Achievement) (today : Int) (nowSec nowMs : Nat)
    (hs : List Habit) (acc : List Notification × List Achievement)
    (p : Notification → Bool) (h : acc.1.any p = true) :
    (hs.foldl (scanHabitStep uid nots achs today nowSec nowMs) acc).1.any p = true := by
  induction hs generalizing acc with
  | nil => exact h
  | cons x xs ih =>
    rw [List.foldl_cons]
    exact ih _ (scanHabitStep_any_fst uid nots achs today nowSec nowMs acc x p h)

theorem scanFold_any_snd (uid : String) (nots : List Notification)
    (achs : List Achievement) (today : Int) (nowSec nowMs : Nat)
    (hs : List Habit) (acc : List Notification × List Achievement)
    (p : Achievement → Bool) (h : acc.2.any p = true) :
    (hs.foldl (scanHabitStep uid nots achs today nowSec nowMs) acc).2.any p = true := by
  induction hs generalizing acc with
  | nil => exact h
  | cons x xs ih =>
    rw [List.foldl_cons]
    exact ih _ (scanHabitStep_any_snd uid nots achs today nowSec nowMs acc x p h)

theorem milestoneFold_complete (uid : String) (habit : Habit) (streak : Nat)
    (achs : List Achievement) (nowMs : Nat) (ms : List (Nat × String))
    (acc : List Notification × List Achievement) (m : Nat × String)
    (hm : m ∈ ms) (hstreak : m.1 ≤ streak)
    (hne : achs.any (achMatches uid habit.id m.1) = false) :
    (ms.foldl (scanMilestoneStep uid habit streak achs nowMs) acc).2.any
      (achMatches uid habit.id m.1) = true := by
  induction ms generalizing acc with
  | nil => cases hm
  | cons m' ms' ih =>
    rw [List.foldl_cons]
    rcases List.mem_cons.mp hm with heq | htail
    · subst heq
      by_cases hstaged : acc.2.any (achMatches uid habit.id m.1) = true
      · exact milestoneFold_any_snd _ _ _ _ _ _ _ _
          (scanMilestoneStep_any_snd _ _ _ _ _ _ _ _ hstaged)
      · have hsf : acc.2.any (achMatches uid habit.id m.1) = false := by
          cases hv : acc.2.any (achMatches uid habit.id m.1)
          · rfl
          · exact absurd hv hstaged
        have hstep : (scanMilestoneStep uid habit streak achs nowMs acc m).2.any
            (achMatches uid habit.id m.1) = true := by
          unfold scanMilestoneStep
          rw [if_pos hstreak, hne, hsf]
          simp only [Bool.not_false, Bool.and_self, if_pos]
          rw [List.any_append, hsf]
          simp [achMatches]
        exact milestoneFold_any_snd _ _ _ _ _ _ _ _ hstep
    · exact ih _ htail

theorem scanHabitStep_ach_complete (uid : String) (nots : List Notification)
    (achs : List Achievement) (today : Int) (nowSec nowMs : Nat)
    (acc : List Notification × List Achievement) (habit : Habit) (m : Nat × String)
    (hm : m ∈ milestoneList) (hstreak : m.1 ≤ calculateStreak habit today)
    (hne : achs.any (achMatches uid habit.id m.1) = false) :
    (scanHabitStep uid nots achs today nowSec nowMs acc habit).2.any
      (achMatches uid habit.id m.1) = true := by
  unfold scanHabitStep
  exact milestoneFold_complete uid habit _ achs nowMs milestoneList _ m hm hstreak hne

theorem scanFold_ach_complete (uid : String) (nots : List Notification)
    (achs : List Achievement) (today : Int) (nowSec nowMs : Nat)
    (hs : List Habit) (acc : List Notification × List Achievement)
    (habit : Habit) (m : Nat × String)
    (hh : habit ∈ hs) (hm : m ∈ milestoneList)
    (hstreak : m.1 ≤ calculateStreak habit today)
    (hne : achs.any (achMatches uid habit.id m.1) = false) :
    (hs.foldl (scanHabitStep uid nots achs today nowSec nowMs) acc).2.any
      (achMatches uid habit.id m.1) = true := by
  induction hs generalizing acc with
  | nil => cases hh
  | cons x xs ih =>
    rw [List.foldl_cons]
    rcases List.mem_cons.mp hh with heq | htail
    · subst heq
      exact scanFold_any_snd _ _ _ _ _ _ _ _ _
        (scanHabitStep_ach_complete uid nots achs today nowSec nowMs acc habit m
          hm hstreak hne)
    · exact ih _ htail

theorem scanHabitStep_risk_complete (uid : String) (nots : List Notification)
    (achs : List Achievement) (today : Int) (nowSec nowMs : Nat)
    (acc : List Notification × List Achievement) (habit : Habit)
    (hcond : (riskCutoffSec < nowSec &&
        !(logStatus habit.logs today == some HabitStatus.DONE) &&
        decide (0 < calculateStreak habit today) &&
        !(nots.any (fun n =>
          decide (n.nid = NotifId.streakRisk habit.id today)))) = true) :
    (scanHabitStep uid nots achs today nowSec nowMs acc habit).1.any
      (fun n => decide (n.nid = NotifId.streakRisk habit.id today)) = true := by
  unfold scanHabitStep
  apply milestoneFold_any_fst
  unfold riskStep
  rw [if_pos hcond, List.any_append]
  simp

theorem scanFold_risk_complete (uid : String) (nots : List Notification)
    (achs : List Achievement) (today : Int) (nowSec nowMs : Nat)
    (hs : List Habit) (acc : List Notification × List Achievement) (habit : Habit)
    (hh : habit ∈ hs)
    (hcond : (riskCutoffSec < nowSec &&
        !(logStatus habit.logs today == some HabitStatus.DONE) &&
        decide (0 < calculateStreak habit today) &&
        !(nots.any (fun n =>
          decide (n.nid = NotifId.streakRisk habit.id today)))) = true) :
    (hs.foldl (scanHabitStep uid nots achs today nowSec nowMs) acc).1.any
      (fun n => decide (n.nid = NotifId.streakRisk habit.id today)) = true := by
  induction hs generalizing acc with
  | nil => cases hh
  | cons x xs ih =>
    rw [List.foldl_cons]
    rcases List.mem_cons.mp hh with heq | htail
    · subst heq
      exact scanFold_any_fst _ _ _ _ _ _ _ _ _
        (scanHabitStep_risk_complete uid nots achs today nowSec nowMs acc habit hcond)
    · exact ih _ htail

theorem reminderBase_complete (u : User) (nots : List Notification)
    (today : Int) (nowSec : Nat) (t : Nat)
    (ht : u.dailyReminderTime = some t)
    (hcond : (t < nowSec && !(nots.any (fun n =>
        decide (n.nid = NotifId.reminder u.id today)))) = true) :
    (reminderBase u nots today nowSec).1.any
      (fun n => decide (n.nid = NotifId.reminder u.id today)) = true := by
  unfold reminderBase
  rw [ht]
  simp only [hcond, if_pos]
  simp

theorem reminderBase_snd (u : User) (nots : List Notification)
    (today : Int) (nowSec : Nat) :
    (reminderBase u nots today nowSec).2 = [] := by
  unfold reminderBase
  split
  all_goals first
  | rfl
  | (split <;> rfl)

theorem scanMilestoneStep_count (uid : String) (habit : Habit) (streak : Nat)
    (achs : List Achievement) (nowMs : Nat)
    (acc : List Notification × List Achievement) (m : Nat × String)
    (uid2 hid : String) (mm : Nat) :
    achKeyCount (scanMilestoneStep uid habit streak achs nowMs acc m).2 uid2 hid mm
      = achKeyCount acc.2 uid2 hid mm +
        (if uid2 = uid ∧ hid = habit.id ∧ mm = m.1 ∧ m.1 ≤ streak ∧
            achKeyCount achs uid habit.id m.1 = 0 ∧
            achKeyCount acc.2 uid habit.id m.1 = 0 then 1 else 0) := by
  unfold scanMilestoneStep
  by_cases h1 : m.1 ≤ streak
  · rw [if_pos h1]
    by_cases h2 : achs.any (achMatches uid habit.id m.1) = true
    · have hpc : ¬ achKeyCount achs uid habit.id m.1 = 0 := by
        rw [achKeyCount_eq_zero_iff]
        simp [h2]
      rw [h2]
      simp only [Bool.not_true, Bool.false_and, Bool.false_eq_true, if_false]
      rw [if_neg (by tauto)]
      omega
    · have h2f : achs.any (achMatches uid habit.id m.1) = false := by
        cases hv : achs.any (achMatches uid habit.id m.1)
        · rfl
        · exact absurd hv h2
      rw [h2f]
      by_cases h3 : acc.2.any (achMatches uid habit.id m.1) = true
      · have hsc : ¬ achKeyCount acc.2 uid habit.id m.1 = 0 := by
          rw [achKeyCount_eq_zero_iff]
          simp [h3]
        rw [h3]
        simp only [Bool.not_true, Bool.not_false, Bool.true_and, Bool.false_eq_true,
          if_false]
        rw [if_neg (by tauto)]
        omega
      · have h3f : acc.2.any (achMatches uid habit.id m.1) = false := by
          cases hv : acc.2.any (achMatches uid habit.id m.1)
          · rfl
          · exact absurd hv h3
        have hpc : achKeyCount achs uid habit.id m.1 = 0 :=
          (achKeyCount_eq_zero_iff _ _ _ _).mpr h2f
        have hsc : achKeyCount acc.2 uid habit.id m.1 = 0 :=
          (achKeyCount_eq_zero_iff _ _ _ _).mpr h3f
        rw [h3f]
        simp only [Bool.not_false, Bool.and_self, if_pos]
        rw [achKeyCount_append]
        congr 1
        by_cases hkey : uid2 = uid ∧ hid = habit.id ∧ mm = m.1
        · rw [if_pos ⟨hkey.1, hkey.2.1, hkey.2.2, h1, hpc, hsc⟩]
          obtain ⟨k1, k2, k3⟩ := hkey
          simp [achKeyCount, achMatches, k1, k2, k3]
        · rw [if_neg (by tauto)]
          simp only [achKeyCount, achMatches, List.filter_cons]
          rw [if_neg (fun hd => hkey (by
            have hq := of_decide_eq_true hd
            exact ⟨hq.1.symm, hq.2.1.symm, hq.2.2.symm⟩))]
          simp
  · rw [if_neg h1]
    rw [if_neg (by tauto)]
    omega

theorem milestoneFold_count (uid : String) (habit : Habit) (streak : Nat)
    (achs : List Achievement) (nowMs : Nat) (ms : List (Nat × String))
    (acc : List Notification × List Achievement) (uid2 hid : String) (mm : Nat)
    (hnd : (ms.map Prod.fst).Nodup) :
    achKeyCount (ms.foldl (scanMilestoneStep uid habit streak achs nowMs) acc).2
        uid2 hid mm
      = achKeyCount acc.2 uid2 hid mm +
        (if uid2 = uid ∧ hid = habit.id ∧ mm ∈ ms.map Prod.fst ∧ mm ≤ streak ∧
            achKeyCount achs uid habit.id mm = 0 ∧
            achKeyCount acc.2 uid habit.id mm = 0 then 1 else 0) := by
  induction ms generalizing acc with
  | nil => simp
  | cons m tail ih =>
    rw [List.foldl_cons]
    have hnds : (m.1 :: tail.map Prod.fst).Nodup := by simpa using hnd
    have hnotin : m.1 ∉ tail.map Prod.fst := (List.nodup_cons.mp hnds).1
    have hnd2 : (tail.map Prod.fst).Nodup := (List.nodup_cons.mp hnds).2
    rw [ih _ hnd2, scanMilestoneStep_count]
    by_cases hmm : mm = m.1
    · rw [if_neg (show ¬ (uid2 = uid ∧ hid = habit.id ∧ mm ∈ tail.map Prod.fst ∧
          mm ≤ streak ∧ achKeyCount achs uid habit.id mm = 0 ∧
          achKeyCount (scanMilestoneStep uid habit streak achs nowMs acc m).2
            uid habit.id mm = 0) from
        fun hcon => hnotin (by rw [← hmm]; exact hcon.2.2.1))]
      have hiff : (uid2 = uid ∧ hid = habit.id ∧ mm = m.1 ∧ m.1 ≤ streak ∧
          achKeyCount achs uid habit.id m.1 = 0 ∧
          achKeyCount acc.2 uid habit.id m.1 = 0)
          ↔ (uid2 = uid ∧ hid = habit.id ∧ mm ∈ (m :: tail).map Prod.fst ∧
          mm ≤ streak ∧ achKeyCount achs uid habit.id mm = 0 ∧
          achKeyCount acc.2 uid habit.id mm = 0) := by
        rw [hmm]
        constructor
        · rintro ⟨h1, h2, -, h4, h5, h6⟩
          refine ⟨h1, h2, ?_, h4, h5, h6⟩
          rw [List.map_cons]
          exact List.mem_cons_self _ _
        · rintro ⟨h1, h2, -, h4, h5, h6⟩
          exact ⟨h1, h2, rfl, h4, h5, h6⟩
      rw [if_congr hiff rfl rfl]
      omega
    · have hstep := scanMilestoneStep_count uid habit streak achs nowMs acc m
        uid habit.id mm
      rw [if_neg (show ¬ (uid = uid ∧ habit.id = habit.id ∧ mm = m.1 ∧
          m.1 ≤ streak ∧ achKeyCount achs uid habit.id m.1 = 0 ∧
          achKeyCount acc.2 uid habit.id m.1 = 0) from
        fun hcon => hmm hcon.2.2.1), Nat.add_zero] at hstep
      simp only [hstep]
      rw [if_neg (show ¬ (uid2 = uid ∧ hid = habit.id ∧ mm = m.1 ∧
          m.1 ≤ streak ∧ achKeyCount achs uid habit.id m.1 = 0 ∧
          achKeyCount acc.2 uid habit.id m.1 = 0) from
        fun hcon => hmm hcon.2.2.1)]
      have hiff : (uid2 = uid ∧ hid = habit.id ∧ mm ∈ tail.map Prod.fst ∧
          mm ≤ streak ∧ achKeyCount achs uid habit.id mm = 0 ∧
          achKeyCount acc.2 uid habit.id mm = 0)
          ↔ (uid2 = uid ∧ hid = habit.id ∧ mm ∈ (m :: tail).map Prod.fst ∧
          mm ≤ streak ∧ achKeyCount achs uid habit.id mm = 0 ∧
          achKeyCount acc.2 uid habit.id mm = 0) := by
        constructor
        · rintro ⟨h1, h2, h3, h4, h5, h6⟩
          refine ⟨h1, h2, ?_, h4, h5, h6⟩
          rw [List.map_cons]
          exact List.mem_cons_of_mem _ h3
        · rintro ⟨h1, h2, h3, h4, h5, h6⟩
          rw [List.map_cons] at h3
          rcases List.mem_cons.mp h3 with heq | htl
          · exact absurd heq hmm
          · exact ⟨h1, h2, htl, h4, h5, h6⟩
      rw [if_congr hiff rfl rfl]
      omega

theorem scanHabitStep_count (uid : String) (nots : List Notification)
    (achs : List Achievement) (today : Int) (nowSec nowMs : Nat)
    (acc : List Notification × List Achievement) (habit : Habit)
    (uid2 hid : String) (mm : Nat) :
    achKeyCount (scanHabitStep uid nots achs today nowSec nowMs acc habit).2
        uid2 hid mm
      = achKeyCount acc.2 uid2 hid mm +
        (if uid2 = uid ∧ hid = habit.id ∧ mm ∈ ([11, 21, 31] : List Nat) ∧
            mm ≤ calculateStreak habit today ∧
            achKeyCount achs uid habit.id mm = 0 ∧
            achKeyCount acc.2 uid habit.id mm = 0 then 1 else 0) := by
  unfold scanHabitStep
  rw [milestoneFold_count uid habit _ achs nowMs milestoneList _ uid2 hid mm
    (by decide)]
  have hms : milestoneList.map Prod.fst = ([11, 21, 31] : List Nat) := rfl
  rw [hms]
  simp only [riskStep_snd]

theorem scanFold_count (uid : String) (nots : List Notification)
    (achs : List Achievement) (today : Int) (nowSec nowMs : Nat)
    (hs : List Habit) (acc : List Notification × List Achievement)
    (uid2 hid : String) (mm : Nat)
    (hnd : (hs.map Habit.id).Nodup)
    (hacc : ∀ h ∈ hs, achKeyCount acc.2 uid h.id mm = 0) :
    achKeyCount (hs.foldl (scanHabitStep uid nots achs today nowSec nowMs) acc).2
        uid2 hid mm
      = achKeyCount acc.2 uid2 hid mm +
        (if ∃ h ∈ hs, h.id = hid ∧ uid2 = uid ∧ mm ∈ ([11, 21, 31] : List Nat) ∧
            mm ≤ calculateStreak h today ∧ achKeyCount achs uid hid mm = 0
          then 1 else 0) := by
  induction hs generalizing acc with
  | nil => simp
  | cons x xs ih =>
    rw [List.foldl_cons]
    have hnds : (x.id :: xs.map Habit.id).Nodup := by simpa using hnd
    have hxnotin : x.id ∉ xs.map Habit.id := (List.nodup_cons.mp hnds).1
    have hnd2 : (xs.map Habit.id).Nodup := (List.nodup_cons.mp hnds).2
    have hx0 : achKeyCount acc.2 uid x.id mm = 0 := hacc x (by simp)
    have hacc2 : ∀ h ∈ xs,
        achKeyCount (scanHabitStep uid nots achs today nowSec nowMs acc x).2
          uid h.id mm = 0 := by
      intro h hmem
      rw [scanHabitStep_count]
      rw [if_neg (show ¬ (uid = uid ∧ h.id = x.id ∧
          mm ∈ ([11, 21, 31] : List Nat) ∧ mm ≤ calculateStreak x today ∧
          achKeyCount achs uid x.id mm = 0 ∧
          achKeyCount acc.2 uid x.id mm = 0) from
        fun hc => hxnotin (by
          rw [← hc.2.1]
          exact List.mem_map_of_mem Habit.id hmem))]
      rw [hacc h (by simp [hmem])]
    rw [ih _ hnd2 hacc2, scanHabitStep_count]
    have hsum : (if uid2 = uid ∧ hid = x.id ∧ mm ∈ ([11, 21, 31] : List Nat) ∧
          mm ≤ calculateStreak x today ∧ achKeyCount achs uid x.id mm = 0 ∧
          achKeyCount acc.2 uid x.id mm = 0 then 1 else 0)
        + (if ∃ h ∈ xs, h.id = hid ∧ uid2 = uid ∧
            mm ∈ ([11, 21, 31] : List Nat) ∧ mm ≤ calculateStreak h today ∧
            achKeyCount achs uid hid mm = 0 then 1 else 0)
        = (if ∃ h ∈ x :: xs, h.id = hid ∧ uid2 = uid ∧
            mm ∈ ([11, 21, 31] : List Nat) ∧ mm ≤ calculateStreak h today ∧
            achKeyCount achs uid hid mm = 0 then 1 else 0) := by
      by_cases hcx : uid2 = uid ∧ hid = x.id ∧ mm ∈ ([11, 21, 31] : List Nat) ∧
          mm ≤ calculateStreak x today ∧ achKeyCount achs uid x.id mm = 0 ∧
          achKeyCount acc.2 uid x.id mm = 0
      · have hnotail : ¬ ∃ h ∈ xs, h.id = hid ∧ uid2 = uid ∧
            mm ∈ ([11, 21, 31] : List Nat) ∧ mm ≤ calculateStreak h today ∧
            achKeyCount achs uid hid mm = 0 := by
          rintro ⟨h, hmem, hhid, -⟩
          refine hxnotin ?_
          rw [← hcx.2.1, ← hhid]
          exact List.mem_map_of_mem Habit.id hmem
        have hecons : ∃ h ∈ x :: xs, h.id = hid ∧ uid2 = uid ∧
            mm ∈ ([11, 21, 31] : List Nat) ∧ mm ≤ calculateStreak h today ∧
            achKeyCount achs uid hid mm = 0 := by
          refine ⟨x, List.mem_cons_self x xs, hcx.2.1.symm, hcx.1, hcx.2.2.1,
            hcx.2.2.2.1, ?_⟩
          rw [hcx.2.1]
          exact hcx.2.2.2.2.1
        rw [if_pos hcx, if_neg hnotail, if_pos hecons]
      · by_cases het : ∃ h ∈ xs, h.id = hid ∧ uid2 = uid ∧
            mm ∈ ([11, 21, 31] : List Nat) ∧ mm ≤ calculateStreak h today ∧
            achKeyCount achs uid hid mm = 0
        · have hecons : ∃ h ∈ x :: xs, h.id = hid ∧ uid2 = uid ∧
              mm ∈ ([11, 21, 31] : List Nat) ∧ mm ≤ calculateStreak h today ∧
              achKeyCount achs uid hid mm = 0 := by
            obtain ⟨h, hmem, rest⟩ := het
            exact ⟨h, List.mem_cons_of_mem _ hmem, rest⟩
          rw [if_neg hcx, if_pos het, if_pos hecons]
        · have hnecons : ¬ ∃ h ∈ x :: xs, h.id = hid ∧ uid2 = uid ∧
              mm ∈ ([11, 21, 31] : List Nat) ∧ mm ≤ calculateStreak h today ∧
              achKeyCount achs uid hid mm = 0 := by
            rintro ⟨h, hmem, hhid, hu, hmmm, hst, hpc⟩
            rcases List.mem_cons.mp hmem with heq | htl
            · subst heq
              refine hcx ⟨hu, hhid.symm, hmmm, hst, ?_, hx0⟩
              rw [hhid]
              exact hpc
            · exact het ⟨h, htl, hhid, hu, hmmm, hst, hpc⟩
          rw [if_neg hcx, if_neg het, if_neg hnecons]
    omega

theorem scanMilestoneStep_mem_snd (uid : String) (habit : Habit) (streak : Nat)
    (achs : List Achievement) (nowMs : Nat)
    (acc : List Notification × List Achievement) (m : Nat × String)
    (a : Achievement)
    (ha : a ∈ (scanMilestoneStep uid habit streak achs nowMs acc m).2) :
    a ∈ acc.2 ∨ a.userId = uid := by
  unfold scanMilestoneStep at ha
  by_cases h1 : m.1 ≤ streak
  · rw [if_pos h1] at ha
    split at ha
    · rcases List.mem_append.mp ha with h | h
      · exact Or.inl h
      · simp only [List.mem_singleton] at h
        right
        rw [h]
    · exact Or.inl ha
  · rw [if_neg h1] at ha
    exact Or.inl ha

theorem milestoneFold_mem_snd (uid : String) (habit : Habit) (streak : Nat)
    (achs : List Achievement) (nowMs : Nat) (ms : List (Nat × String))
    (acc : List Notification × List Achievement) (a : Achievement)
    (ha : a ∈ (ms.foldl (scanMilestoneStep uid habit streak achs nowMs) acc).2) :
    a ∈ acc.2 ∨ a.userId = uid := by
  induction ms generalizing acc with
  | nil => exact Or.inl ha
  | cons m tail ih =>
    rw [List.foldl_cons] at ha
    rcases ih _ ha with h | h
    · exact scanMilestoneStep_mem_snd uid habit streak achs nowMs acc m a h
    · exact Or.inr h

theorem scanFold_mem_snd (uid : String) (nots : List Notification)
    (achs : List Achievement) (today : Int) (nowSec nowMs : Nat)
    (hs : List Habit) (acc : List Notification × List Achievement)
    (a : Achievement)
    (ha : a ∈ (hs.foldl (scanHabitStep uid nots achs today nowSec nowMs) acc).2) :
    a ∈ acc.2 ∨ a.userId = uid := by
  induction hs generalizing acc with
  | nil => exact Or.inl ha
  | cons x xs ih =>
    rw [List.foldl_cons] at ha
    rcases ih _ ha with h | h
    · unfold scanHabitStep at h
      rcases milestoneFold_mem_snd _ _ _ _ _ _ _ _ h with h2 | h2
      · rw [riskStep_snd] at h2
        exact Or.inl h2
      · exact Or.inr h2
    · exact Or.inr h

/-- The current user with no reminder configured. -/
def u1User : User := { id := "u1", name := "U", dailyReminderTime := none }

/-- A habit with DONE logs on the 31 consecutive days ending today (day 0). -/
def streak31Habit : Habit :=
  { baseHabit with
    logs := mkLogs ((List.range 31).map
      (fun i => (-(Int.ofNat i), HabitStatus.DONE))) }

/-- C5 confirmed: one scan pass stages exactly one achievement per
(user, habit, milestone) triple whose milestone the streak has reached and
which exists neither in the persisted set nor earlier in the pass; in
particular the persisted set extended by the pass still has at most one
achievement per triple. -/
theorem achievement_uniqueness (u : User) (habits : List Habit)
    (nots : List Notification) (achs : List Achievement)
    (today : Int) (nowSec nowMs : Nat)
    (hnd : (habits.map Habit.id).Nodup) :
    (∀ (hid : String) (mm : Nat),
      achKeyCount (checkScan u habits nots achs today nowSec nowMs).2 u.id hid mm
        = if ∃ h ∈ habits, h.userId = u.id ∧ h.completed = false ∧ h.id = hid ∧
              mm ∈ ([11, 21, 31] : List Nat) ∧ mm ≤ calculateStreak h today ∧
              achKeyCount achs u.id hid mm = 0 then 1 else 0) ∧
    (∀ (uid2 hid : String) (mm : Nat), achKeyCount achs uid2 hid mm ≤ 1 →
      achKeyCount (achs ++ (checkScan u habits nots achs today nowSec nowMs).2)
        uid2 hid mm ≤ 1) := by
  have hpart1 : ∀ (hid : String) (mm : Nat),
      achKeyCount (checkScan u habits nots achs today nowSec nowMs).2 u.id hid mm
        = if ∃ h ∈ habits, h.userId = u.id ∧ h.completed = false ∧ h.id = hid ∧
              mm ∈ ([11, 21, 31] : List Nat) ∧ mm ≤ calculateStreak h today ∧
              achKeyCount achs u.id hid mm = 0 then 1 else 0 := by
    intro hid mm
    unfold checkScan
    have hndf : (((habits.filter
        (fun h => decide (h.userId = u.id) && !h.completed)).map Habit.id)).Nodup :=
      (List.Sublist.map Habit.id (List.filter_sublist habits)).nodup hnd
    have hbase0 : ∀ h ∈ habits.filter
        (fun h => decide (h.userId = u.id) && !h.completed),
        achKeyCount (reminderBase u nots today nowSec).2 u.id h.id mm = 0 := by
      intro h _
      rw [reminderBase_snd]
      rfl
    rw [scanFold_count u.id nots achs today nowSec nowMs
      (habits.filter (fun h => decide (h.userId = u.id) && !h.completed))
      (reminderBase u nots today nowSec) u.id hid mm hndf hbase0]
    rw [reminderBase_snd]
    have h0 : achKeyCount ([] : List Achievement) u.id hid mm = 0 := rfl
    rw [h0, Nat.zero_add]
    have hiff : (∃ h ∈ habits.filter
          (fun h => decide (h.userId = u.id) && !h.completed),
          h.id = hid ∧ u.id = u.id ∧ mm ∈ ([11, 21, 31] : List Nat) ∧
          mm ≤ calculateStreak h today ∧ achKeyCount achs u.id hid mm = 0)
        ↔ (∃ h ∈ habits, h.userId = u.id ∧ h.completed = false ∧ h.id = hid ∧
          mm ∈ ([11, 21, 31] : List Nat) ∧ mm ≤ calculateStreak h today ∧
          achKeyCount achs u.id hid mm = 0) := by
      constructor
      · rintro ⟨h, hmem, hhid, -, hmmm, hst, hpc⟩
        have hm2 := List.mem_filter.mp hmem
        have hφ := hm2.2
        rw [Bool.and_eq_true, decide_eq_true_eq, Bool.not_eq_true'] at hφ
        exact ⟨h, hm2.1, hφ.1, hφ.2, hhid, hmmm, hst, hpc⟩
      · rintro ⟨h, hmem, huid, hcomp, hhid, hmmm, hst, hpc⟩
        refine ⟨h, List.mem_filter.mpr ⟨hmem, ?_⟩, hhid, rfl, hmmm, hst, hpc⟩
        rw [Bool.and_eq_true, decide_eq_true_eq, Bool.not_eq_true']
        exact ⟨huid, hcomp⟩
    rw [if_congr hiff rfl rfl]
  refine ⟨hpart1, ?_⟩
  intro uid2 hid mm hle
  rw [achKeyCount_append]
  by_cases hueq : uid2 = u.id
  · subst hueq
    rw [hpart1 hid mm]
    by_cases hex : ∃ h ∈ habits, h.userId = u.id ∧ h.completed = false ∧
        h.id = hid ∧ mm ∈ ([11, 21, 31] : List Nat) ∧
        mm ≤ calculateStreak h today ∧ achKeyCount achs u.id hid mm = 0
    · rw [if_pos hex]
      obtain ⟨h, -, -, -, -, -, -, hpc⟩ := hex
      omega
    · rw [if_neg hex]
      omega
  · have hz : achKeyCount (checkScan u habits nots achs today nowSec nowMs).2
        uid2 hid mm = 0 := by
      rw [achKeyCount_eq_zero_iff]
      refine List.any_eq_false.mpr ?_
      intro a hamem
      unfold checkScan at hamem
      have hcases := scanFold_mem_snd u.id nots achs today nowSec nowMs _ _ a hamem
      rw [reminderBase_snd] at hcases
      rcases hcases with h | huida
      · cases h
      · unfold achMatches
        simp only [decide_eq_true_eq]
        rintro ⟨h1, -⟩
        refine hueq ?_
        rw [← h1]
        exact huida
    rw [hz]
    omega

/-- Witness for C5: the 31-day streak habit with an empty persisted set
yields exactly one achievement for the 21-day milestone in one pass. -/
theorem achievement_uniqueness_witness :
    achKeyCount (checkScan u1User [streak31Habit] [] [] 0 0 0).2
      u1User.id "h1" 21 = 1 := by
  rw [(achievement_uniqueness u1User [streak31Habit] [] [] 0 0 0 (by decide)).1
    "h1" 21]
  decide

theorem foldl_fixed {α β : Type} (f : β → α → β) (l : List α) (b : β)
    (h : ∀ x ∈ l, ∀ acc, f acc x = acc) : l.foldl f b = b := by
  induction l generalizing b with
  | nil => rfl
  | cons x xs ih =>
    rw [List.foldl_cons, h x (by simp) b]
    exact ih b (fun y hy acc => h y (by simp [hy]) acc)

theorem milestoneFold_id (uid : String) (habit : Habit) (streak : Nat)
    (achs2 : List Achievement) (nowMs : Nat) (ms : List (Nat × String))
    (acc : List Notification × List Achievement)
    (hall : ∀ m ∈ ms, m.1 ≤ streak →
      achs2.any (achMatches uid habit.id m.1) = true) :
    ms.foldl (scanMilestoneStep uid habit streak achs2 nowMs) acc = acc := by
  induction ms generalizing acc with
  | nil => rfl
  | cons m tail ih =>
    rw [List.foldl_cons]
    have hstep : scanMilestoneStep uid habit streak achs2 nowMs acc m = acc := by
      unfold scanMilestoneStep
      by_cases h1 : m.1 ≤ streak
      · rw [if_pos h1, hall m (by simp) h1]
        simp
      · rw [if_neg h1]
    rw [hstep]
    exact ih acc (fun m2 hm2 hs2 => hall m2 (List.mem_cons_of_mem _ hm2) hs2)

theorem scanHabitStep_id (uid : String) (nots2 : List Notification)
    (achs2 : List Achievement) (today : Int) (nowSec nowMs : Nat)
    (acc : List Notification × List Achievement) (habit : Habit)
    (hrisk : (riskCutoffSec < nowSec &&
        !(logStatus habit.logs today == some HabitStatus.DONE) &&
        decide (0 < calculateStreak habit today)) = true →
      nots2.any (fun n =>
        decide (n.nid = NotifId.streakRisk habit.id today)) = true)
    (hm : ∀ m ∈ milestoneList, m.1 ≤ calculateStreak habit today →
      achs2.any (achMatches uid habit.id m.1) = true) :
    scanHabitStep uid nots2 achs2 today nowSec nowMs acc habit = acc := by
  unfold scanHabitStep
  have hr : riskStep uid nots2 habit (calculateStreak habit today) today nowSec acc
      = acc := by
    unfold riskStep
    by_cases hc : (riskCutoffSec < nowSec &&
        !(logStatus habit.logs today == some HabitStatus.DONE) &&
        decide (0 < calculateStreak habit today)) = true
    · rw [hrisk hc]
      simp [hc]
    · have hcf : (riskCutoffSec < nowSec &&
          !(logStatus habit.logs today == some HabitStatus.DONE) &&
          decide (0 < calculateStreak habit today)) = false := by
        cases hv : (riskCutoffSec < nowSec &&
            !(logStatus habit.logs today == some HabitStatus.DONE) &&
            decide (0 < calculateStreak habit today))
        · rfl
        · exact absurd hv hc
      simp [hcf]
  show milestoneList.foldl
      (scanMilestoneStep uid habit (calculateStreak habit today) achs2 nowMs)
      (riskStep uid nots2 habit (calculateStreak habit today) today nowSec acc)
    = acc
  rw [hr]
  exact milestoneFold_id uid habit _ achs2 nowMs milestoneList acc hm

/-- C6 confirmed: running the scan a second time on the state produced by
committing the first run (the staged notification and achievement batches
appended to the persisted lists), with habits and clock unchanged, stages
zero notifications and zero achievements. -/
theorem scan_idempotent (u : User) (habits : List Habit)
    (nots : List Notification) (achs : List Achievement)
    (today : Int) (nowSec nowMs : Nat) :
    checkScan u habits
        (nots ++ (checkScan u habits nots achs today nowSec nowMs).1)
        (achs ++ (checkScan u habits nots achs today nowSec nowMs).2)
        today nowSec nowMs = ([], []) := by
  have hbase : reminderBase u
      (nots ++ (checkScan u habits nots achs today nowSec nowMs).1) today nowSec
      = ([], []) := by
    unfold reminderBase
    cases hT : u.dailyReminderTime with
    | none => rfl
    | some t =>
      by_cases ht : t < nowSec
      · have hany : (nots ++ (checkScan u habits nots achs today nowSec nowMs).1).any
            (fun n => decide (n.nid = NotifId.reminder u.id today)) = true := by
          rw [List.any_append]
          by_cases horig : nots.any
              (fun n => decide (n.nid = NotifId.reminder u.id today)) = true
          · rw [horig]
            rfl
          · have horigf : nots.any
                (fun n => decide (n.nid = NotifId.reminder u.id today)) = false := by
              cases hv : nots.any
                  (fun n => decide (n.nid = NotifId.reminder u.id today))
              · rfl
              · exact absurd hv horig
            have hcond : (t < nowSec && !(nots.any (fun n =>
                decide (n.nid = NotifId.reminder u.id today)))) = true := by
              rw [horigf]
              simp [ht]
            have hemit := reminderBase_complete u nots today nowSec t hT hcond
            have hf1 : (checkScan u habits nots achs today nowSec nowMs).1.any
                (fun n => decide (n.nid = NotifId.reminder u.id today)) = true :=
              scanFold_any_fst u.id nots achs today nowSec nowMs _ _ _ hemit
            rw [hf1]
            simp
        rw [hany]
        simp
      · simp [ht]
  show (habits.filter (fun h => decide (h.userId = u.id) && !h.completed)).foldl
      (scanHabitStep u.id
        (nots ++ (checkScan u habits nots achs today nowSec nowMs).1)
        (achs ++ (checkScan u habits nots achs today nowSec nowMs).2)
        today nowSec nowMs)
      (reminderBase u (nots ++ (checkScan u habits nots achs today nowSec nowMs).1)
        today nowSec) = ([], [])
  rw [hbase]
  apply foldl_fixed
  intro h hmem acc
  refine scanHabitStep_id u.id _ _ today nowSec nowMs acc h ?_ ?_
  · intro hc
    rw [List.any_append]
    by_cases horig : nots.any
        (fun n => decide (n.nid = NotifId.streakRisk h.id today)) = true
    · rw [horig]
      rfl
    · have horigf : nots.any
          (fun n => decide (n.nid = NotifId.streakRisk h.id today)) = false := by
        cases hv : nots.any
            (fun n => decide (n.nid = NotifId.streakRisk h.id today))
        · rfl
        · exact absurd hv horig
      have hcond : (riskCutoffSec < nowSec &&
          !(logStatus h.logs today == some HabitStatus.DONE) &&
          decide (0 < calculateStreak h today) &&
          !(nots.any (fun n =>
            decide (n.nid = NotifId.streakRisk h.id today)))) = true := by
        rw [hc, horigf]
        rfl
      have hemit := scanFold_risk_complete u.id nots achs today nowSec nowMs
        (habits.filter (fun h => decide (h.userId = u.id) && !h.completed))
        (reminderBase u nots today nowSec) h hmem hcond
      have hf : (checkScan u habits nots achs today nowSec nowMs).1.any
          (fun n => decide (n.nid = NotifId.streakRisk h.id today)) = true := hemit
      rw [hf]
      simp
  · intro m hm hstreak
    rw [List.any_append]
    by_cases horig : achs.any (achMatches u.id h.id m.1) = true
    · rw [horig]
      rfl
    · have horigf : achs.any (achMatches u.id h.id m.1) = false := by
        cases hv : achs.any (achMatches u.id h.id m.1)
        · rfl
        · exact absurd hv horig
      have hemit := scanFold_ach_complete u.id nots achs today nowSec nowMs
        (habits.filter (fun h => decide (h.userId = u.id) && !h.completed))
        (reminderBase u nots today nowSec) h m hmem hm hstreak horigf
      have hf : (checkScan u habits nots achs today nowSec nowMs).2.any
          (achMatches u.id h.id m.1) = true := hemit
      rw [hf]
      simp

end HabitSync
